import Mathlib

/-!
Verification of the metrics core of the GEP reporting repository.

The development shallowly embeds the computational core of
`Automated-Daily-Report/update_gep_report.py` (namespace `Report`) and of
`finance_dashboard/data_io.py` / `finance_dashboard/kpi.py` (namespace `Dash`):
pandas frames become lists of records, Python floats become rationals,
Python exceptions become `Except`, and `None` / `NaN` / `NaT` sentinels
become `Option`.  Definitions come first, followed by all lemmas and the
claim theorems.
-/

deriving instance DecidableEq for Except

namespace GepArr

/-- Python's `k.startswith('_')`, expressed on the character list. -/
def startsWithUnderscore (s : String) : Bool :=
  match s.data with
  | [] => false
  | c :: _ => c = '_'

/-! ### Generic list helpers

`dedupFirst` models `pandas.DataFrame.drop_duplicates` and first-occurrence
key collection: it keeps the first occurrence of each element, in order.
`insertionSortBy` is a stable sort: `insertLe le x l` places `x` before the
first element `y` of `l` with `le x y`; with `le` the (non-strict) key
comparison this keeps equal-key elements in their input order, which is the
behaviour of `sorted` in Python and of `sort_values` on the (already
key-sorted, small) frames this repository sorts. -/

def dedupFirstAux [DecidableEq α] (seen : List α) : List α → List α
  | [] => []
  | x :: xs => if x ∈ seen then dedupFirstAux seen xs else x :: dedupFirstAux (x :: seen) xs

def dedupFirst [DecidableEq α] (l : List α) : List α := dedupFirstAux [] l

def insertLe (le : α → α → Bool) (x : α) : List α → List α
  | [] => [x]
  | y :: ys => if le x y then x :: y :: ys else y :: insertLe le x ys

def insertionSortBy (le : α → α → Bool) : List α → List α
  | [] => []
  | x :: xs => insertLe le x (insertionSortBy le xs)

/-! ### Calendar arithmetic (Python `calendar.monthrange`) -/

/-- Gregorian leap-year rule, as in Python's `calendar.isleap`. -/
def isLeapYear (y : ℕ) : Bool := (y % 4 == 0 && y % 100 != 0) || y % 400 == 0

/-- Python `calendar.monthrange(y, m)[1]`: the number of days of month `m` of year `y`. -/
def monthrange (y m : ℕ) : ℕ :=
  if m = 2 then (if isLeapYear y then 29 else 28)
  else if m = 4 ∨ m = 6 ∨ m = 9 ∨ m = 11 then 30
  else 31

/-! ### Python `round` on rationals

Python's builtin `round` rounds half to even (banker's rounding); the model
works on `ℚ` in place of IEEE doubles (at every concrete input used below the
float computation is exact or far from a half-way point, so the two agree).
`roundHalfUp` is the convention the spec asserts (half away from zero for the
nonnegative quantities at play); it exists only to compare against the code's
rounding. -/

def floorQ (q : ℚ) : ℤ := ⌊q⌋

def roundHalfEven (q : ℚ) : ℤ :=
  let f := floorQ q
  let r := q - (f : ℚ)
  if r < 1 / 2 then f
  else if 1 / 2 < r then f + 1
  else if f % 2 = 0 then f else f + 1

def roundHalfUp (q : ℚ) : ℤ := floorQ (q + 1 / 2)

/-! ## The daily-report engine: `Automated-Daily-Report/update_gep_report.py` -/

namespace Report

/-- An injected "today" (the script reads `datetime.now()`; the date-window
logic is a pure function of it). -/
structure Date where
  year : ℕ
  month : ℕ
  day : ℕ
deriving DecidableEq

/-- The reporting-window resolution of `parse_gep_data_for_current_month`
(update_gep_report.py lines 131-161): on the first day of a month the window
is the complete previous month; otherwise it is the current month through
yesterday.  Returns `(current_year, current_month, current_day)` where
`current_day` is the last complete day of the window. -/
def resolveWindow (today : Date) : ℕ × ℕ × ℕ :=
  if today.day = 1 then
    if today.month = 1 then (today.year - 1, 12, monthrange (today.year - 1) 12)
    else (today.year, today.month - 1, monthrange today.year (today.month - 1))
  else (today.year, today.month, today.day - 1)

/-- In `main` (update_gep_report.py line 952): `days_elapsed = today.day - 1`,
computed unconditionally and passed explicitly to `calculate_metrics`. -/
def mainDaysElapsed (today : Date) : ℕ := today.day - 1

/-- The `days_elapsed is None` default inside `calculate_metrics`
(lines 456-473): previous month's day count on the 1st, else `today.day - 1`. -/
def autoDaysElapsed (today : Date) : ℕ :=
  if today.day = 1 then
    if today.month = 1 then monthrange (today.year - 1) 12
    else monthrange today.year (today.month - 1)
  else today.day - 1

/-! ### Period comparator (`parse_gep_data_for_current_month`, lines 219-283)

A window is the list of partner names of the add events falling in it (each
row of the filtered frame has `adds_flag = 1`, so the groupby-sum per partner
is the number of its events, and the window total is the list length). -/

/-- Per-partner comparison record (the per-partner dict of the code). -/
structure PartnerEntry where
  current : ℕ
  prior : ℕ
  change : ℤ
  pct : ℚ
  yoyPct : Option ℤ
deriving DecidableEq

/-- Line 233: `((current - prior) / prior * 100) if prior > 0 else (100 if current > 0 else 0)`. -/
def pctChange (current prior : ℕ) : ℚ :=
  if 0 < prior then ((current : ℚ) - (prior : ℚ)) / (prior : ℚ) * 100
  else if 0 < current then 100 else 0

/-- Lines 236-238: per-partner YoY percent, only when the partner had
prior-year adds. -/
def yoyPctFor (current priorYearValue : ℕ) : Option ℤ :=
  if 0 < priorYearValue then
    some (roundHalfEven (((current : ℚ) - (priorYearValue : ℚ)) / (priorYearValue : ℚ) * 100))
  else none

/-- Lines 224-246: one entry per partner appearing in any window.  (The code
iterates a Python set union, whose order is unspecified; the model fixes the
deterministic first-occurrence order.  No claim depends on entry order.) -/
def comparePartners (currentWindow priorWindow priorYearWindow : List String) :
    List (String × PartnerEntry) :=
  (dedupFirst (currentWindow ++ priorWindow ++ priorYearWindow)).map fun p =>
    (p, { current := currentWindow.count p
          prior := priorWindow.count p
          change := (currentWindow.count p : ℤ) - (priorWindow.count p : ℤ)
          pct := pctChange (currentWindow.count p) (priorWindow.count p)
          yoyPct := yoyPctFor (currentWindow.count p) (priorYearWindow.count p) })

/-- The heterogeneous values of the returned dict: per-partner dicts plus the
two reserved metadata entries.  (`_today_partial` also carries a date string
and a per-partner breakdown in the code; only the aggregate count matters to
any claim.) -/
inductive CompEntry where
  | partnerData (e : PartnerEntry)
  | yoyTotal (yoyChange : ℤ) (yoyPct : Option ℤ) (priorYearTotal : ℕ)
  | todayMeta (adds : ℕ)
deriving DecidableEq

/-- The full return value of `parse_gep_data_for_current_month` (lines
224-283): partner entries followed by the `_yoy_total` and `_today_partial`
metadata entries. -/
def parseGepComparison (currentWindow priorWindow priorYearWindow : List String)
    (todayAdds : ℕ) : List (String × CompEntry) :=
  ((comparePartners currentWindow priorWindow priorYearWindow).map fun pe =>
    (pe.1, CompEntry.partnerData pe.2)) ++
  [("_yoy_total",
      CompEntry.yoyTotal ((currentWindow.length : ℤ) - (priorYearWindow.length : ℤ))
        (if 0 < priorYearWindow.length then
          some (roundHalfEven (((currentWindow.length : ℚ) - (priorYearWindow.length : ℚ)) /
            (priorYearWindow.length : ℚ) * 100))
        else none)
        priorYearWindow.length),
    ("_today_partial", CompEntry.todayMeta todayAdds)]

/-! ### Target resolution (`get_monthly_targets`, lines 423-451) -/

/-- The `FALLBACK_TARGETS` dict (lines 55-58) combined with the `targets.get('low', 987)`
read (line 446: neither dict entry defines `'low'`) and the last-resort
`return 948, 1534, 987` (line 451). -/
def fallbackTargets (year month : ℕ) : ℕ × ℕ × ℕ :=
  if year = 2025 ∧ month = 12 then (424, 943, 987)
  else if year = 2026 ∧ month = 1 then (948, 1278, 987)
  else (948, 1534, 987)

/-- Model of `get_monthly_targets`: `fetched` is the result of the fresh-fetch
collaborator (`fetch_monthly_targets_from_sheets`), `none` when it failed
(it returns `None, None, None`).  The code's `if forecast and stretch and low`
is Python truthiness, so a fetched `0` also falls through to the fallback. -/
def getMonthlyTargets (fetched : Option (ℕ × ℕ × ℕ)) (year month : ℕ) : ℕ × ℕ × ℕ :=
  match fetched with
  | some (f, s, l) =>
      if f ≠ 0 ∧ s ≠ 0 ∧ l ≠ 0 then (f, s, l) else fallbackTargets year month
  | none => fallbackTargets year month

/-! ### `calculate_metrics` (lines 454-532) -/

/-- The failure modes the interpreter can raise in `calculate_metrics`:
`ZeroDivisionError` from a `/` with zero divisor, `KeyError` from `p['current']`
on a non-partner dict.  (The code has no typed `InvalidInput` error.) -/
inductive PyError where
  | zeroDivision
  | keyError
deriving DecidableEq

/-- Python `/`: raises `ZeroDivisionError` on a zero divisor. -/
def pyDiv (a b : ℚ) : Except PyError ℚ :=
  if b = 0 then Except.error PyError.zeroDivision else Except.ok (a / b)

def isPartnerDataB : CompEntry → Bool
  | CompEntry.partnerData _ => true
  | _ => false

/-- The comprehensions of `calculate_metrics` all iterate the comparison dict,
skip keys starting with `'_'`, and then access per-partner fields
(`p['current']`, ...), which raises `KeyError` on a non-partner value.  This
collects the non-metadata entries once with exactly that behaviour. -/
def partnerEntries : List (String × CompEntry) → Except PyError (List (String × PartnerEntry))
  | [] => Except.ok []
  | (k, e) :: rest =>
    if startsWithUnderscore k then partnerEntries rest
    else
      match e with
      | CompEntry.partnerData pe => (partnerEntries rest).map fun ps => (k, pe) :: ps
      | _ => Except.error PyError.keyError

/-- A comparison dict shaped as `parse_gep_data_for_current_month` produces it:
every non-underscore key holds a per-partner dict. -/
def wellFormedB (comparison : List (String × CompEntry)) : Bool :=
  comparison.all fun ke => startsWithUnderscore ke.1 || isPartnerDataB ke.2

/-- The `partner_comparison.get('_yoy_total', ...)` followed by `.get(...)` reads
(lines 485-487). -/
def getYoyMeta : List (String × CompEntry) → Option (ℤ × Option ℤ × ℕ)
  | [] => none
  | (k, e) :: rest =>
    if k = "_yoy_total" then
      match e with
      | CompEntry.yoyTotal c p t => some (c, p, t)
      | _ => none
    else getYoyMeta rest

/-- The `partner_comparison.get('_today_partial', ...)` read (line 490). -/
def getTodayMeta : List (String × CompEntry) → Option ℕ
  | [] => none
  | (k, e) :: rest =>
    if k = "_today_partial" then
      match e with
      | CompEntry.todayMeta adds => some adds
      | _ => none
    else getTodayMeta rest

/-- The metrics dict built by `calculate_metrics` (lines 506-530).
`dailyAverage` models Python's `round(x, 1)` as `roundHalfEven (10*x) / 10`. -/
structure Metrics where
  mtdAdds : ℕ
  runRate : ℤ
  daysElapsed : ℤ
  daysInMonth : ℕ
  low : ℕ
  forecast : ℕ
  stretch : ℕ
  attainmentForecast : ℤ
  attainmentStretch : ℤ
  attainmentLow : ℤ
  runRateVsForecast : ℤ
  runRateVsStretch : ℤ
  runRateVsLow : ℤ
  forecastVsStretch : ℤ
  forecastVsLow : ℤ
  dailyAverage : ℚ
  yoyChange : Option ℤ
  yoyPct : Option ℤ
  todayAdds : Option ℕ
  topPartners : List (String × PartnerEntry)
  leaders : List (String × PartnerEntry)
  laggards : List (String × PartnerEntry)
deriving DecidableEq

/-- Model of `calculate_metrics(partner_comparison, days_elapsed)` with the current
date and the target-fetch outcome injected.  `days_in_month` is hardcoded to
31 (line 475).  The run-rate uses the unrounded float for the
`run_rate_vs_*` ratios, exactly as the code divides the unrounded `run_rate`
variable.  Divisions happen in source order, so the first zero divisor
raises. -/
def calculateMetrics (comparison : List (String × CompEntry)) (daysElapsedArg : Option ℤ)
    (today : Date) (fetched : Option (ℕ × ℕ × ℕ)) : Except PyError Metrics := do
  let daysElapsed : ℤ :=
    match daysElapsedArg with
    | some d => d
    | none => (autoDaysElapsed today : ℤ)
  let daysInMonth : ℕ := 31
  let targets := getMonthlyTargets fetched today.year today.month
  let forecast := targets.1
  let stretch := targets.2.1
  let low := targets.2.2
  let partners ← partnerEntries comparison
  let totalAdds : ℕ := (partners.map fun pe => pe.2.current).sum
  let runRateDaily ← pyDiv (totalAdds : ℚ) (daysElapsed : ℚ)
  let runRate : ℚ := runRateDaily * (daysInMonth : ℚ)
  let yoyMeta := getYoyMeta comparison
  let todayMeta := getTodayMeta comparison
  let leaders := (insertionSortBy (fun a b => decide (b.2.pct ≤ a.2.pct))
    (partners.filter fun pe => decide (5 ≤ pe.2.current))).take 3
  let laggards := (insertionSortBy (fun a b => decide (a.2.pct ≤ b.2.pct))
    (partners.filter fun pe => decide (0 < pe.2.prior))).take 3
  let topPartners := (insertionSortBy (fun a b => decide (b.2.current ≤ a.2.current))
    partners).take 5
  let aF ← pyDiv (totalAdds : ℚ) (forecast : ℚ)
  let aS ← pyDiv (totalAdds : ℚ) (stretch : ℚ)
  let aL ← pyDiv (totalAdds : ℚ) (low : ℚ)
  let rF ← pyDiv runRate (forecast : ℚ)
  let rS ← pyDiv runRate (stretch : ℚ)
  let rL ← pyDiv runRate (low : ℚ)
  let fS ← pyDiv (forecast : ℚ) (stretch : ℚ)
  let fL ← pyDiv (forecast : ℚ) (low : ℚ)
  let dAvg ← pyDiv (totalAdds : ℚ) (daysElapsed : ℚ)
  Except.ok
    { mtdAdds := totalAdds
      runRate := roundHalfEven runRate
      daysElapsed := daysElapsed
      daysInMonth := daysInMonth
      low := low
      forecast := forecast
      stretch := stretch
      attainmentForecast := roundHalfEven (aF * 100)
      attainmentStretch := roundHalfEven (aS * 100)
      attainmentLow := roundHalfEven (aL * 100)
      runRateVsForecast := roundHalfEven (rF * 100)
      runRateVsStretch := roundHalfEven (rS * 100)
      runRateVsLow := roundHalfEven (rL * 100)
      forecastVsStretch := roundHalfEven (fS * 100)
      forecastVsLow := roundHalfEven (fL * 100)
      dailyAverage := (roundHalfEven (dAvg * 10) : ℚ) / 10
      yoyChange := yoyMeta.map fun y => y.1
      yoyPct := yoyMeta.bind fun y => y.2.1
      todayAdds := todayMeta
      topPartners := topPartners
      leaders := leaders
      laggards := laggards }

/-- The sentinel convention of the spec, written from its words (0 when both
zero; +100 when prior is 0 and current > 0; the ratio otherwise), to be
compared with the code's `pctChange`. -/
def pctChangeSpec (current prior : ℕ) : ℚ :=
  if current = 0 ∧ prior = 0 then 0
  else if prior = 0 then 100
  else ((current : ℚ) - (prior : ℚ)) / (prior : ℚ) * 100

end Report

/-! ## The variance dashboard core: `finance_dashboard/data_io.py`, `kpi.py` -/

namespace Dash

/-- A normalized pandas timestamp, as `(year, month, day)`.  `Option MDate`
is a date column value: `none` is `NaT` (the result of
`pd.to_datetime(..., errors="coerce")` on an unparseable date). -/
abbrev MDate := ℕ × ℕ × ℕ

/-- An input row after `standardize_columns`: the date cell as its parse
outcome (`none` = unparseable), the value cell as its numeric-parse outcome
(`none` = non-numeric, i.e. `NaN` after `pd.to_numeric(..., errors="coerce")`).
The optional `entity` column is absent, matching the `(period, category)`
schema the claims quantify over. -/
structure RawRow where
  date : Option MDate
  metric : String
  value : Option ℚ
deriving DecidableEq

/-- A row of the tidy frame: columns date, metric, value, series. -/
structure TidyRow where
  date : Option MDate
  metric : String
  value : ℚ
  series : String
deriving DecidableEq

/-- Pandas `dt.to_period("M").dt.to_timestamp("M")`: the month-end timestamp of the
row's month. -/
def monthEnd (d : MDate) : MDate := (d.1, d.2.1, monthrange d.1 d.2.1)

/-- Model of `parse_dates_to_month_end` (data_io.py lines 57-64): coerce then
normalize to month end; `NaT` (`none`) passes through. -/
def parseDatesToMonthEnd (rows : List RawRow) : List RawRow :=
  rows.map fun r => { r with date := r.date.map monthEnd }

/-- A row after `coerce_numeric_values`: the value column is now numeric. -/
structure NumRow where
  date : Option MDate
  metric : String
  value : ℚ
deriving DecidableEq

/-- Model of `coerce_numeric_values` (lines 67-72): `pd.to_numeric(..., errors="coerce")
.fillna(0.0)` — a non-numeric value becomes 0. -/
def coerceNumericValues (rows : List RawRow) : List NumRow :=
  rows.map fun r => ⟨r.date, r.metric, r.value.getD 0⟩

/-- Model of `prepare_tidy_frame` (lines 75-94): standardize, parse dates, coerce
values, tag the series column. -/
def prepareTidyFrame (rows : List RawRow) (seriesName : String) : List TidyRow :=
  (coerceNumericValues (parseDatesToMonthEnd rows)).map fun r =>
    ⟨r.date, r.metric, r.value, seriesName⟩

/-- The join key `idx_cols = ["date", "metric"]` of a tidy row. -/
def rowKey (r : TidyRow) : Option MDate × String := (r.date, r.metric)

/-- The join key a raw input row will carry in the grid. -/
def rawKey (r : RawRow) : Option MDate × String := (r.date.map monthEnd, r.metric)

/-- The (period, category) keys an input's rows will carry in the grid. -/
def inputKeys (rows : List RawRow) : List (Option MDate × String) := rows.map rawKey

/-- The frame `combined = pd.concat([tidy_actuals, tidy_plan])` (data_io.py line 109). -/
def combinedOf (actuals plan : List RawRow) : List TidyRow :=
  prepareTidyFrame actuals "Actual" ++ prepareTidyFrame plan "Plan"

/-- The key list `all_index = combined[idx_cols].drop_duplicates()` (line 113).  Pandas'
`drop_duplicates` treats `NaT` keys as equal and keeps first occurrences; the
`sort_values(idx_cols)` reorder is omitted, being a pure row-order permutation
of the result (no property below depends on row order). -/
def allIndexOf (actuals plan : List RawRow) : List (Option MDate × String) :=
  dedupFirst ((combinedOf actuals plan).map rowKey)

/-- The list `series_vals = combined["series"].drop_duplicates()` (line 114). -/
def seriesValsOf (actuals plan : List RawRow) : List String :=
  dedupFirst ((combinedOf actuals plan).map fun r => r.series)

/-- The `mesh` frame: the cartesian product of the distinct keys with the distinct
series values (line 117). -/
def meshOf (actuals plan : List RawRow) : List ((Option MDate × String) × String) :=
  (allIndexOf actuals plan).flatMap fun k => (seriesValsOf actuals plan).map fun s => (k, s)

/-- One mesh cell of the left merge (lines 119-120): the matching combined
rows, or a single zero-filled row when there is no match (`NaN` value filled
with 0).  Pandas' `merge` matches `NaT` keys to `NaT` keys. -/
def cellOf (combined : List TidyRow) (ks : (Option MDate × String) × String) : List TidyRow :=
  let ms := combined.filter fun r => decide (rowKey r = ks.1 ∧ r.series = ks.2)
  if ms.isEmpty then [⟨ks.1.1, ks.1.2, 0, ks.2⟩] else ms

/-- Model of `align_series` (lines 97-122): concatenate the tagged frames, build the
cartesian mesh of distinct keys × distinct series values, and left-merge the
data onto the mesh, filling missing cells with 0. -/
def alignSeries (actuals plan : List RawRow) : List TidyRow :=
  (meshOf actuals plan).flatMap (cellOf (combinedOf actuals plan))

/-- The selection `df[df["date"] == period]` — a `NaT` date never equals a timestamp. -/
def periodFilter (tidy : List TidyRow) (period : MDate) : List TidyRow :=
  tidy.filter fun r => decide (r.date = some period)

/-- The per-series total for one period: `compute_totals_by_period` groups by
(date, series) and `build_variance_summary` selects the requested period with
`.get(period, 0.0)` (kpi.py lines 21-29 and 61-66); that composition equals
the filtered sum, 0 when the group is absent.  The `entity` filter is
inactive (`entity=None`). -/
def totalFor (tidy : List TidyRow) (period : MDate) (seriesName : String) : ℚ :=
  ((tidy.filter fun r => decide (r.date = some period ∧ r.series = seriesName)).map
    fun r => r.value).sum

/-- A row of the pivot of `compute_variance_by_metric_for_period`. -/
structure MetricVar where
  metric : String
  actual : ℚ
  plan : ℚ
  variance : ℚ
deriving DecidableEq

/-- One cell of that pivot: sum of the series' values for the metric
(`aggfunc="sum", fill_value=0.0`). -/
def metricSum (rows : List TidyRow) (m s : String) : ℚ :=
  ((rows.filter fun r => decide (r.metric = m ∧ r.series = s)).map fun r => r.value).sum

/-- The behaviour pandas documents for a `sort_values` call with its default
`kind='quicksort'`: the output is some permutation of the input that is
ordered by the sort key.  The order of key ties is NOT specified — the
default sort is documented as not stable — so the model abstracts each
`sort_values` call as an arbitrary routine satisfying exactly this
contract. -/
def SortValuesSpec (le : MetricVar → MetricVar → Prop)
    (sortv : List MetricVar → List MetricVar) : Prop :=
  ∀ l : List MetricVar, (sortv l).Perm l ∧ (sortv l).Pairwise le

/-- Model of `compute_variance_by_metric_for_period` (kpi.py lines 32-43)
with the `sort_values("Variance", ascending=False)` call of line 42
abstracted to any routine satisfying the documented contract: filter to the
period, pivot by metric (pandas groups pivot index keys in ascending order),
add the Variance column, and sort by Variance descending. -/
def computeVarianceByMetricForPeriodWith (sortDesc : List MetricVar → List MetricVar)
    (tidy : List TidyRow) (period : MDate) : List MetricVar :=
  let df := periodFilter tidy period
  let pivot := (insertionSortBy (fun a b => decide (a ≤ b))
      (dedupFirst (df.map fun r => r.metric))).map fun m =>
    ⟨m, metricSum df m "Actual", metricSum df m "Plan",
      metricSum df m "Actual" - metricSum df m "Plan"⟩
  sortDesc pivot

/-- A stable determinization of the descending `sort_values` call: sorts by
Variance descending keeping ties in input order.  numpy's introsort is an
insertion sort below its small-sort threshold, so this matches the code
exactly on small pivots; for larger pivots the code guarantees only
`SortValuesSpec`, and every tie-order-sensitive property below is stated
against that contract, not against this determinization. -/
def sortValuesDesc : List MetricVar → List MetricVar :=
  insertionSortBy fun a b => decide (b.variance ≤ a.variance)

/-- The ascending counterpart of `sortValuesDesc` (for
`sort_values("Variance", ascending=True)`). -/
def sortValuesAsc : List MetricVar → List MetricVar :=
  insertionSortBy fun a b => decide (a.variance ≤ b.variance)

/-- A sorting routine that also satisfies the documented `sort_values`
contract (ordered by Variance descending, a permutation of its input) but
breaks Variance ties by metric name DESCENDING — a tie order the unstable
default sort is permitted to produce. -/
def tieReversingSort : List MetricVar → List MetricVar :=
  insertionSortBy fun a b =>
    decide (b.variance < a.variance ∨ (b.variance = a.variance ∧ b.metric ≤ a.metric))

/-- The concrete model of `compute_variance_by_metric_for_period`, used by
the order-insensitive claims: the abstract sort instantiated with the stable
determinization. -/
def computeVarianceByMetricForPeriod (tidy : List TidyRow) (period : MDate) : List MetricVar :=
  computeVarianceByMetricForPeriodWith sortValuesDesc tidy period

/-- The `VarianceSummary` dataclass (kpi.py lines 10-18).
`totalVariancePct = none` models the `NaN` sentinel. -/
structure VarianceSummary where
  period : MDate
  totalPlan : ℚ
  totalActual : ℚ
  totalVariance : ℚ
  totalVariancePct : Option ℚ
  topPositiveContributors : List (String × ℚ)
  topNegativeContributors : List (String × ℚ)
deriving DecidableEq

/-- Model of `build_variance_summary` (kpi.py lines 52-82) with the
`sort_values("Variance", ...)` calls abstracted: line 71 applies a
descending routine to the already-descending pivot, line 72 an ascending
one.  `None` is returned for an empty input frame (lines 53-54); the claims
always supply `period`, so the `period=None` defaulting path is not
taken. -/
def buildVarianceSummaryWith (sortDesc sortAsc : List MetricVar → List MetricVar)
    (tidy : List TidyRow) (period : MDate) (topN : ℕ) :
    Option VarianceSummary :=
  if tidy.isEmpty then none
  else
    let totalPlan := totalFor tidy period "Plan"
    let totalActual := totalFor tidy period "Actual"
    let totalVariance := totalActual - totalPlan
    let totalVariancePct : Option ℚ :=
      if totalPlan ≠ 0 then some (totalVariance / totalPlan * 100) else none
    let varByMetric := computeVarianceByMetricForPeriodWith sortDesc tidy period
    let topPos := (sortDesc varByMetric).take topN
    let topNeg := (sortAsc varByMetric).take topN
    some
      { period := period
        totalPlan := totalPlan
        totalActual := totalActual
        totalVariance := totalVariance
        totalVariancePct := totalVariancePct
        topPositiveContributors := topPos.map fun v => (v.metric, v.variance)
        topNegativeContributors := topNeg.map fun v => (v.metric, v.variance) }

/-- The concrete model of `build_variance_summary`, used by the
order-insensitive claims: the abstract sorts instantiated with the stable
determinizations. -/
def buildVarianceSummary (tidy : List TidyRow) (period : MDate) (topN : ℕ) :
    Option VarianceSummary :=
  buildVarianceSummaryWith sortValuesDesc sortValuesAsc tidy period topN

end Dash

/-! ## Lemmas: generic list helpers -/

theorem dedupFirstAux_cons_mem [DecidableEq α] {x : α} {seen : List α} (hx : x ∈ seen)
    (xs : List α) : dedupFirstAux seen (x :: xs) = dedupFirstAux seen xs := by
  simp [dedupFirstAux, hx]

theorem dedupFirstAux_cons_not_mem [DecidableEq α] {x : α} {seen : List α} (hx : x ∉ seen)
    (xs : List α) : dedupFirstAux seen (x :: xs) = x :: dedupFirstAux (x :: seen) xs := by
  simp [dedupFirstAux, hx]

theorem mem_dedupFirstAux [DecidableEq α] (a : α) :
    ∀ (l : List α) (seen : List α), a ∈ dedupFirstAux seen l ↔ a ∈ l ∧ a ∉ seen := by
  intro l
  induction l with
  | nil => intro seen; simp [dedupFirstAux]
  | cons x xs ih =>
    intro seen
    by_cases hx : x ∈ seen
    · rw [dedupFirstAux_cons_mem hx, ih]
      constructor
      · rintro ⟨h1, h2⟩
        exact ⟨List.mem_cons_of_mem _ h1, h2⟩
      · rintro ⟨h1, h2⟩
        rcases List.mem_cons.mp h1 with rfl | h1
        · exact absurd hx h2
        · exact ⟨h1, h2⟩
    · rw [dedupFirstAux_cons_not_mem hx]
      constructor
      · intro h
        rcases List.mem_cons.mp h with rfl | h
        · exact ⟨List.mem_cons_self _ _, hx⟩
        · obtain ⟨h1, h2⟩ := (ih (x :: seen)).mp h
          exact ⟨List.mem_cons_of_mem _ h1, fun hs => h2 (List.mem_cons_of_mem _ hs)⟩
      · rintro ⟨h1, h2⟩
        rcases List.mem_cons.mp h1 with rfl | h1
        · exact List.mem_cons_self _ _
        · by_cases hax : a = x
          · subst hax; exact List.mem_cons_self _ _
          · refine List.mem_cons_of_mem _ ((ih (x :: seen)).mpr ⟨h1, ?_⟩)
            intro hs
            rcases List.mem_cons.mp hs with h | h
            · exact hax h
            · exact h2 h

theorem nodup_dedupFirstAux [DecidableEq α] :
    ∀ (l : List α) (seen : List α), (dedupFirstAux seen l).Nodup := by
  intro l
  induction l with
  | nil => intro seen; simp [dedupFirstAux]
  | cons x xs ih =>
    intro seen
    by_cases hx : x ∈ seen
    · rw [dedupFirstAux_cons_mem hx]
      exact ih seen
    · rw [dedupFirstAux_cons_not_mem hx, List.nodup_cons]
      refine ⟨?_, ih (x :: seen)⟩
      intro hmem
      exact ((mem_dedupFirstAux x xs (x :: seen)).mp hmem).2 (List.mem_cons_self x seen)

theorem mem_dedupFirst [DecidableEq α] {a : α} {l : List α} : a ∈ dedupFirst l ↔ a ∈ l := by
  simp [dedupFirst, mem_dedupFirstAux]

theorem nodup_dedupFirst [DecidableEq α] (l : List α) : (dedupFirst l).Nodup :=
  nodup_dedupFirstAux l []

theorem count_dedupFirst [DecidableEq α] (a : α) (l : List α) :
    (dedupFirst l).count a = if a ∈ l then 1 else 0 := by
  by_cases h : a ∈ l
  · rw [if_pos h]
    exact List.count_eq_one_of_mem (nodup_dedupFirst l) (mem_dedupFirst.mpr h)
  · rw [if_neg h, List.count_eq_zero]
    exact fun hmem => h (mem_dedupFirst.mp hmem)

theorem dedupFirst_perm_of_perm [DecidableEq α] {l₁ l₂ : List α} (h : l₁.Perm l₂) :
    (dedupFirst l₁).Perm (dedupFirst l₂) := by
  rw [List.perm_iff_count]
  intro a
  rw [count_dedupFirst, count_dedupFirst]
  by_cases ha : a ∈ l₁
  · rw [if_pos ha, if_pos (h.mem_iff.mp ha)]
  · rw [if_neg ha, if_neg (fun hb => ha (h.mem_iff.mpr hb))]

theorem insertLe_perm (le : α → α → Bool) (x : α) :
    ∀ (l : List α), (insertLe le x l).Perm (x :: l) := by
  intro l
  induction l with
  | nil => simp [insertLe]
  | cons y ys ih =>
    by_cases h : le x y
    · simp [insertLe, h]
    · simp only [insertLe, if_neg h]
      exact (ih.cons y).trans (List.Perm.swap x y ys)

theorem insertionSortBy_perm (le : α → α → Bool) :
    ∀ (l : List α), (insertionSortBy le l).Perm l := by
  intro l
  induction l with
  | nil => simp [insertionSortBy]
  | cons x xs ih =>
    exact (insertLe_perm le x (insertionSortBy le xs)).trans (ih.cons x)

theorem mem_insertLe (le : α → α → Bool) (x a : α) (l : List α) :
    a ∈ insertLe le x l ↔ a = x ∨ a ∈ l := by
  rw [(insertLe_perm le x l).mem_iff, List.mem_cons]

theorem mem_insertionSortBy (le : α → α → Bool) (a : α) (l : List α) :
    a ∈ insertionSortBy le l ↔ a ∈ l :=
  (insertionSortBy_perm le l).mem_iff

/-- Stability of the insertion sort, packaged as a pairwise invariant: if the
input is pairwise `r` (e.g. `r` = "appears earlier in the input"), the output
is pairwise "`le`-sorted, and on key ties `r` still holds". -/
theorem insertLe_pairwise (le : α → α → Bool) (r : α → α → Prop)
    (htot : ∀ a b, le a b = true ∨ le b a = true)
    (htrans : ∀ a b c, le a b = true → le b c = true → le a c = true)
    (x : α) :
    ∀ (l : List α),
      l.Pairwise (fun a b => le a b = true ∧ (le b a = true → r a b)) →
      (∀ y ∈ l, r x y) →
      (insertLe le x l).Pairwise (fun a b => le a b = true ∧ (le b a = true → r a b)) := by
  intro l
  induction l with
  | nil => intro _ _; simp [insertLe]
  | cons y ys ih =>
    intro hl hx
    rw [List.pairwise_cons] at hl
    obtain ⟨hy, hys⟩ := hl
    by_cases h : le x y
    · simp only [insertLe, if_pos h]
      refine List.Pairwise.cons ?_ (List.Pairwise.cons hy hys)
      intro z hz
      rcases List.mem_cons.mp hz with rfl | hz
      · exact ⟨h, fun _ => hx z (List.mem_cons_self _ _)⟩
      · exact ⟨htrans x y z h (hy z hz).1, fun _ => hx z (List.mem_cons_of_mem _ hz)⟩
    · simp only [insertLe, if_neg h]
      have hyx : le y x = true := by
        rcases htot x y with h' | h'
        · exact absurd h' h
        · exact h'
      refine List.Pairwise.cons ?_ (ih hys fun z hz => hx z (List.mem_cons_of_mem _ hz))
      intro z hz
      rcases (mem_insertLe le x z ys).mp hz with rfl | hz
      · exact ⟨hyx, fun hxy => absurd hxy h⟩
      · exact hy z hz

theorem insertionSortBy_pairwise (le : α → α → Bool) (r : α → α → Prop)
    (htot : ∀ a b, le a b = true ∨ le b a = true)
    (htrans : ∀ a b c, le a b = true → le b c = true → le a c = true) :
    ∀ (l : List α), l.Pairwise r →
      (insertionSortBy le l).Pairwise (fun a b => le a b = true ∧ (le b a = true → r a b)) := by
  intro l
  induction l with
  | nil => intro _; simp [insertionSortBy]
  | cons x xs ih =>
    intro hl
    rw [List.pairwise_cons] at hl
    refine insertLe_pairwise le r htot htrans x _ (ih hl.2) ?_
    intro y hy
    exact hl.1 y ((mem_insertionSortBy le y xs).mp hy)

/-- Plain sortedness of the insertion sort (no tie information). -/
theorem insertionSortBy_sorted (le : α → α → Bool)
    (htot : ∀ a b, le a b = true ∨ le b a = true)
    (htrans : ∀ a b c, le a b = true → le b c = true → le a c = true)
    (l : List α) : (insertionSortBy le l).Pairwise (fun a b => le a b = true) := by
  have h := insertionSortBy_pairwise le (fun _ _ => True) htot htrans l
    (List.pairwise_iff_forall_sublist.mpr fun _ => trivial)
  exact h.imp fun hab => hab.1

/-- Counting occurrences through an indicator sum (used for mesh counting). -/
theorem sum_map_ite_count [DecidableEq α] (a : α) :
    ∀ (l : List α), (l.map fun x => if x = a then 1 else 0).sum = l.count a := by
  intro l
  induction l with
  | nil => simp
  | cons x xs ih =>
    by_cases h : x = a
    · subst h; simp [ih, List.count_cons, Nat.add_comm]
    · simp [h, ih, List.count_cons, Ne.symm h]

/-- Summing per-element counts over a nodup superset of the counted list's
elements recovers the length of the counted list. -/
theorem sum_map_count_eq_length [DecidableEq α] (l : List α) :
    ∀ (s : List α), s.Nodup → (∀ x ∈ l, x ∈ s) →
      (s.map fun p => l.count p).sum = l.length := by
  induction l with
  | nil => intro s _ _; simp
  | cons x xs ih =>
    intro s hs hsub
    have hx : x ∈ s := hsub x (List.mem_cons_self _ _)
    have hcount : ∀ p : α, (x :: xs).count p = xs.count p + (if p = x then 1 else 0) := by
      intro p
      by_cases h : p = x
      · subst h; simp [List.count_cons]
      · simp [List.count_cons, h]
    calc (s.map fun p => (x :: xs).count p).sum
        = (s.map fun p => xs.count p + (if p = x then 1 else 0)).sum := by
          simp only [hcount]
      _ = (s.map fun p => xs.count p).sum + (s.map fun p => if p = x then 1 else 0).sum := by
          rw [← List.sum_map_add]
      _ = xs.length + 1 := by
          rw [ih s hs fun y hy => hsub y (List.mem_cons_of_mem _ hy),
            sum_map_ite_count x s, List.count_eq_one_of_mem hs hx]
      _ = (x :: xs).length := by simp [Nat.add_comm]

theorem dedupFirst_replicate [DecidableEq α] (n : ℕ) (hn : n ≠ 0) (a : α) :
    dedupFirst (List.replicate n a) = [a] := by
  obtain ⟨m, rfl⟩ := Nat.exists_eq_succ_of_ne_zero hn
  have haux : ∀ k : ℕ, dedupFirstAux [a] (List.replicate k a) = [] := by
    intro k
    induction k with
    | zero => simp [dedupFirstAux]
    | succ j ih =>
      rw [List.replicate_succ, dedupFirstAux_cons_mem (List.mem_cons_self a []), ih]
  show dedupFirstAux [] (List.replicate (m + 1) a) = [a]
  rw [List.replicate_succ, dedupFirstAux_cons_not_mem (List.not_mem_nil a), haux m]

/-! ## Lemmas: evaluating the rounding model -/

theorem roundHalfEven_of_lt (q : ℚ) (n : ℤ) (h1 : floorQ q = n) (h2 : q - (n : ℚ) < 1 / 2) :
    roundHalfEven q = n := by
  simp only [roundHalfEven, h1, if_pos h2]

theorem roundHalfEven_of_gt (q : ℚ) (n : ℤ) (h1 : floorQ q = n) (h2 : 1 / 2 < q - (n : ℚ)) :
    roundHalfEven q = n + 1 := by
  simp only [roundHalfEven, h1]
  rw [if_neg (by linarith), if_pos h2]

theorem roundHalfEven_of_half_even (q : ℚ) (n : ℤ) (h1 : floorQ q = n)
    (h2 : q - (n : ℚ) = 1 / 2) (h3 : n % 2 = 0) : roundHalfEven q = n := by
  simp only [roundHalfEven, h1, h2]
  norm_num [h3]

namespace Report

/-! ## Lemmas: target resolution -/

theorem fallbackTargets_ne_zero (y m : ℕ) :
    (fallbackTargets y m).1 ≠ 0 ∧ (fallbackTargets y m).2.1 ≠ 0 ∧ (fallbackTargets y m).2.2 ≠ 0 := by
  unfold fallbackTargets
  split
  · exact ⟨by norm_num, by norm_num, by norm_num⟩
  · split
    · exact ⟨by norm_num, by norm_num, by norm_num⟩
    · exact ⟨by norm_num, by norm_num, by norm_num⟩

/-- Every tuple `get_monthly_targets` can return has all components nonzero:
a fetched zero is rejected by the truthiness check and every fallback value is
a nonzero literal. -/
theorem getMonthlyTargets_ne_zero (fetched : Option (ℕ × ℕ × ℕ)) (y m : ℕ) :
    (getMonthlyTargets fetched y m).1 ≠ 0 ∧ (getMonthlyTargets fetched y m).2.1 ≠ 0 ∧
      (getMonthlyTargets fetched y m).2.2 ≠ 0 := by
  match fetched with
  | none => exact fallbackTargets_ne_zero y m
  | some (f, s, l) =>
    by_cases h : f ≠ 0 ∧ s ≠ 0 ∧ l ≠ 0
    · rw [getMonthlyTargets, if_pos h]
      exact h
    · rw [getMonthlyTargets, if_neg h]
      exact fallbackTargets_ne_zero y m

/-! ## Lemmas: the comparison dict and `calculate_metrics` -/

theorem partnerEntries_ok_of_wellFormed :
    ∀ (l : List (String × CompEntry)), wellFormedB l = true →
      ∃ ps, partnerEntries l = Except.ok ps := by
  intro l
  induction l with
  | nil => intro _; exact ⟨[], rfl⟩
  | cons ke rest ih =>
    intro h
    rw [wellFormedB, List.all_cons, Bool.and_eq_true] at h
    obtain ⟨hke, hrest⟩ := h
    obtain ⟨ps, hps⟩ := ih hrest
    obtain ⟨k, e⟩ := ke
    by_cases hk : startsWithUnderscore k
    · exact ⟨ps, by simp [partnerEntries, hk, hps]⟩
    · simp only [hk, Bool.false_or] at hke
      match e, hke with
      | CompEntry.partnerData pe, _ =>
        exact ⟨(k, pe) :: ps, by simp [partnerEntries, hk, hps, Except.map]⟩

theorem partnerEntries_tagged (rest : List (String × CompEntry))
    (rs : List (String × PartnerEntry)) (hrest : partnerEntries rest = Except.ok rs) :
    ∀ (ps : List (String × PartnerEntry)), (∀ p ∈ ps, startsWithUnderscore p.1 = false) →
      partnerEntries ((ps.map fun pe => (pe.1, CompEntry.partnerData pe.2)) ++ rest) =
        Except.ok (ps ++ rs) := by
  intro ps
  induction ps with
  | nil => intro _; simpa using hrest
  | cons q qs ih =>
    intro h
    have hq : startsWithUnderscore q.1 = false := h q (List.mem_cons_self _ _)
    have hqs := ih fun p hp => h p (List.mem_cons_of_mem _ hp)
    simp [partnerEntries, hq, hqs, Except.map]

theorem partnerEntries_metas (yc : ℤ) (yp : Option ℤ) (yt : ℕ) (ta : ℕ) :
    partnerEntries [("_yoy_total", CompEntry.yoyTotal yc yp yt),
      ("_today_partial", CompEntry.todayMeta ta)] = Except.ok [] := by
  have h1 : startsWithUnderscore "_yoy_total" = true := by decide
  have h2 : startsWithUnderscore "_today_partial" = true := by decide
  simp [partnerEntries, h1, h2]

/-- Keys of `comparePartners` come from the windows. -/
theorem comparePartners_keys (cur prior py : List String) (p : String) (e : PartnerEntry)
    (h : (p, e) ∈ comparePartners cur prior py) : p ∈ cur ++ prior ++ py := by
  unfold comparePartners at h
  obtain ⟨q, hq, heq⟩ := List.mem_map.mp h
  cases heq
  exact mem_dedupFirst.mp hq

/-- Shape of a `comparePartners` entry. -/
theorem comparePartners_entry (cur prior py : List String) (p : String) (e : PartnerEntry)
    (h : (p, e) ∈ comparePartners cur prior py) :
    e = { current := cur.count p
          prior := prior.count p
          change := (cur.count p : ℤ) - (prior.count p : ℤ)
          pct := pctChange (cur.count p) (prior.count p)
          yoyPct := yoyPctFor (cur.count p) (py.count p) } := by
  unfold comparePartners at h
  obtain ⟨q, _, heq⟩ := List.mem_map.mp h
  cases heq
  rfl

theorem partnerEntries_parseGep (cur prior py : List String) (t : ℕ)
    (hu : ∀ p ∈ cur ++ prior ++ py, startsWithUnderscore p = false) :
    partnerEntries (parseGepComparison cur prior py t) =
      Except.ok (comparePartners cur prior py) := by
  unfold parseGepComparison
  rw [partnerEntries_tagged _ [] (partnerEntries_metas _ _ _ _) _ ?_, List.append_nil]
  intro q hq
  obtain ⟨p, e⟩ := q
  exact hu p (comparePartners_keys cur prior py p e hq)

theorem wellFormedB_parseGep (cur prior py : List String) (t : ℕ) :
    wellFormedB (parseGepComparison cur prior py t) = true := by
  rw [wellFormedB, List.all_eq_true]
  intro ke hke
  rw [parseGepComparison, List.mem_append] at hke
  rcases hke with hke | hke
  · obtain ⟨q, _, heq⟩ := List.mem_map.mp hke
    cases heq
    simp [isPartnerDataB]
  · have h1 : startsWithUnderscore "_yoy_total" = true := by decide
    have h2 : startsWithUnderscore "_today_partial" = true := by decide
    simp only [List.mem_cons, List.not_mem_nil, or_false] at hke
    rcases hke with rfl | rfl
    · simp [h1]
    · simp [h2]

/-- The single success equation for `calculate_metrics` on the explicit
`days_elapsed` path: with well-formed comparison data and a nonzero
`days_elapsed` it returns exactly this record (every divisor other than
`days_elapsed` is a target component, and those are never zero). -/
theorem calculateMetrics_ok (comparison : List (String × CompEntry)) (d : ℤ)
    (today : Date) (fetched : Option (ℕ × ℕ × ℕ)) (partners : List (String × PartnerEntry))
    (hp : partnerEntries comparison = Except.ok partners) (hd : d ≠ 0) :
    calculateMetrics comparison (some d) today fetched = Except.ok
      { mtdAdds := (partners.map fun pe => pe.2.current).sum
        runRate := roundHalfEven (((partners.map fun pe => pe.2.current).sum : ℚ) / (d : ℚ) * 31)
        daysElapsed := d
        daysInMonth := 31
        low := (getMonthlyTargets fetched today.year today.month).2.2
        forecast := (getMonthlyTargets fetched today.year today.month).1
        stretch := (getMonthlyTargets fetched today.year today.month).2.1
        attainmentForecast := roundHalfEven ((((partners.map fun pe => pe.2.current).sum : ℚ) /
          ((getMonthlyTargets fetched today.year today.month).1 : ℚ)) * 100)
        attainmentStretch := roundHalfEven ((((partners.map fun pe => pe.2.current).sum : ℚ) /
          ((getMonthlyTargets fetched today.year today.month).2.1 : ℚ)) * 100)
        attainmentLow := roundHalfEven ((((partners.map fun pe => pe.2.current).sum : ℚ) /
          ((getMonthlyTargets fetched today.year today.month).2.2 : ℚ)) * 100)
        runRateVsForecast := roundHalfEven ((((partners.map fun pe => pe.2.current).sum : ℚ) /
          (d : ℚ) * 31 / ((getMonthlyTargets fetched today.year today.month).1 : ℚ)) * 100)
        runRateVsStretch := roundHalfEven ((((partners.map fun pe => pe.2.current).sum : ℚ) /
          (d : ℚ) * 31 / ((getMonthlyTargets fetched today.year today.month).2.1 : ℚ)) * 100)
        runRateVsLow := roundHalfEven ((((partners.map fun pe => pe.2.current).sum : ℚ) /
          (d : ℚ) * 31 / ((getMonthlyTargets fetched today.year today.month).2.2 : ℚ)) * 100)
        forecastVsStretch := roundHalfEven ((((getMonthlyTargets fetched today.year today.month).1 : ℚ) /
          ((getMonthlyTargets fetched today.year today.month).2.1 : ℚ)) * 100)
        forecastVsLow := roundHalfEven ((((getMonthlyTargets fetched today.year today.month).1 : ℚ) /
          ((getMonthlyTargets fetched today.year today.month).2.2 : ℚ)) * 100)
        dailyAverage := (roundHalfEven ((((partners.map fun pe => pe.2.current).sum : ℚ) /
          (d : ℚ)) * 10) : ℚ) / 10
        yoyChange := (getYoyMeta comparison).map fun y => y.1
        yoyPct := (getYoyMeta comparison).bind fun y => y.2.1
        todayAdds := getTodayMeta comparison
        topPartners := (insertionSortBy (fun a b => decide (b.2.current ≤ a.2.current))
          partners).take 5
        leaders := (insertionSortBy (fun a b => decide (b.2.pct ≤ a.2.pct))
          (partners.filter fun pe => decide (5 ≤ pe.2.current))).take 3
        laggards := (insertionSortBy (fun a b => decide (a.2.pct ≤ b.2.pct))
          (partners.filter fun pe => decide (0 < pe.2.prior))).take 3 } := by
  obtain ⟨hf, hs, hl⟩ := getMonthlyTargets_ne_zero fetched today.year today.month
  have hdq : (d : ℚ) ≠ 0 := Int.cast_ne_zero.mpr hd
  have hfq : ((getMonthlyTargets fetched today.year today.month).1 : ℚ) ≠ 0 :=
    Nat.cast_ne_zero.mpr hf
  have hsq : ((getMonthlyTargets fetched today.year today.month).2.1 : ℚ) ≠ 0 :=
    Nat.cast_ne_zero.mpr hs
  have hlq : ((getMonthlyTargets fetched today.year today.month).2.2 : ℚ) ≠ 0 :=
    Nat.cast_ne_zero.mpr hl
  unfold calculateMetrics
  simp [hp, pyDiv, hdq, hfq, hsq, hlq, Except.instMonad, Except.bind, Function.comp_def]

/-- On the explicit path, a zero `days_elapsed` raises `ZeroDivisionError` at
the run-rate division. -/
theorem calculateMetrics_zeroDiv (comparison : List (String × CompEntry))
    (today : Date) (fetched : Option (ℕ × ℕ × ℕ)) (partners : List (String × PartnerEntry))
    (hp : partnerEntries comparison = Except.ok partners) :
    calculateMetrics comparison (some 0) today fetched = Except.error PyError.zeroDivision := by
  unfold calculateMetrics
  simp [hp, pyDiv, Except.instMonad, Except.bind]

/-- The code's `pctChange` agrees with the spec's sentinel convention pointwise. -/
theorem pctChange_eq_spec (c p : ℕ) : pctChange c p = pctChangeSpec c p := by
  unfold pctChange pctChangeSpec
  rcases Nat.eq_zero_or_pos p with hp | hp
  · subst hp
    rcases Nat.eq_zero_or_pos c with hc | hc
    · subst hc
      norm_num
    · rw [if_neg (lt_irrefl 0), if_pos hc, if_neg (by omega : ¬(c = 0 ∧ (0 : ℕ) = 0)),
        if_pos rfl]
  · rw [if_pos hp, if_neg (by omega : ¬(c = 0 ∧ p = 0)), if_neg (by omega : ¬p = 0)]

/-- Evaluation of `comparePartners` on a one-partner current window. -/
theorem comparePartners_single (n : ℕ) (hn : n ≠ 0) (p : String) :
    comparePartners (List.replicate n p) [] [] =
      [(p, { current := n, prior := 0, change := (n : ℤ), pct := 100, yoyPct := none })] := by
  unfold comparePartners
  rw [List.append_nil, List.append_nil, dedupFirst_replicate n hn p]
  simp [List.count_replicate, pctChange, yoyPctFor, Nat.pos_of_ne_zero hn]

/-- The per-partner currents of `comparePartners` sum to the current window's
event count. -/
theorem comparePartners_sum_current (cur prior py : List String) :
    ((comparePartners cur prior py).map fun pe => pe.2.current).sum = cur.length := by
  unfold comparePartners
  rw [List.map_map]
  exact sum_map_count_eq_length cur (dedupFirst (cur ++ prior ++ py)) (nodup_dedupFirst _)
    fun x hx => mem_dedupFirst.mpr (List.mem_append.mpr
      (Or.inl (List.mem_append.mpr (Or.inl hx))))

theorem getYoyMeta_tagged (rest : List (String × CompEntry)) :
    ∀ (ps : List (String × PartnerEntry)), (∀ p ∈ ps, startsWithUnderscore p.1 = false) →
      getYoyMeta ((ps.map fun pe => (pe.1, CompEntry.partnerData pe.2)) ++ rest) =
        getYoyMeta rest := by
  intro ps
  induction ps with
  | nil => intro _; simp
  | cons q qs ih =>
    intro h
    have hq : ¬q.1 = "_yoy_total" := by
      intro he
      have hw := h q (List.mem_cons_self _ _)
      rw [he] at hw
      exact absurd hw (by decide)
    simp [getYoyMeta, hq, ih fun p hp => h p (List.mem_cons_of_mem _ hp)]

theorem getTodayMeta_tagged (rest : List (String × CompEntry)) :
    ∀ (ps : List (String × PartnerEntry)), (∀ p ∈ ps, startsWithUnderscore p.1 = false) →
      getTodayMeta ((ps.map fun pe => (pe.1, CompEntry.partnerData pe.2)) ++ rest) =
        getTodayMeta rest := by
  intro ps
  induction ps with
  | nil => intro _; simp
  | cons q qs ih =>
    intro h
    have hq : ¬q.1 = "_today_partial" := by
      intro he
      have hw := h q (List.mem_cons_self _ _)
      rw [he] at hw
      exact absurd hw (by decide)
    simp [getTodayMeta, hq, ih fun p hp => h p (List.mem_cons_of_mem _ hp)]

theorem getYoyMeta_metas (yc : ℤ) (yp : Option ℤ) (yt ta : ℕ) :
    getYoyMeta [("_yoy_total", CompEntry.yoyTotal yc yp yt),
      ("_today_partial", CompEntry.todayMeta ta)] = some (yc, yp, yt) := by
  simp [getYoyMeta]

theorem getTodayMeta_metas (yc : ℤ) (yp : Option ℤ) (yt ta : ℕ) :
    getTodayMeta [("_yoy_total", CompEntry.yoyTotal yc yp yt),
      ("_today_partial", CompEntry.todayMeta ta)] = some ta := by
  have hne : ¬("_yoy_total" : String) = "_today_partial" := by decide
  simp [getTodayMeta, hne]

theorem keys_take_sort (le : (String × PartnerEntry) → (String × PartnerEntry) → Bool)
    (n : ℕ) (l : List (String × PartnerEntry))
    (h : ∀ p ∈ l, startsWithUnderscore p.1 = false) :
    ∀ ke ∈ (insertionSortBy le l).take n, startsWithUnderscore ke.1 = false := by
  intro ke hke
  exact h ke ((mem_insertionSortBy le ke l).mp (List.mem_of_mem_take hke))

/-! ## Claim theorems for the daily-report engine -/

/-- Claim C1 (code bug): the window-resolution logic of
`parse_gep_data_for_current_month` and the `days_elapsed=None` default of
`calculate_metrics` implement the claimed first-day-of-month shift (full
previous month, its last day as last complete day, previous month's day count
as `days_elapsed`; day 1 through yesterday otherwise) — but `main` (line 952)
unconditionally passes `days_elapsed = today.day - 1`, which on the 1st of a
month is `0`, bypasses the documented day-1 branch, and makes
`calculate_metrics` raise `ZeroDivisionError` instead of reporting the full
previous month. -/
theorem firstDayBoundary_bug :
    resolveWindow ⟨2026, 2, 1⟩ = (2026, 1, 31) ∧
    resolveWindow ⟨2026, 1, 1⟩ = (2025, 12, 31) ∧
    resolveWindow ⟨2026, 2, 15⟩ = (2026, 2, 14) ∧
    autoDaysElapsed ⟨2026, 2, 1⟩ = 31 ∧
    mainDaysElapsed ⟨2026, 2, 1⟩ = 0 ∧
    calculateMetrics (parseGepComparison ["A"] [] [] 0)
      (some (mainDaysElapsed ⟨2026, 2, 1⟩ : ℤ)) ⟨2026, 2, 1⟩ none =
      Except.error PyError.zeroDivision := by
  refine ⟨by decide, by decide, by decide, by decide, by decide, ?_⟩
  have hpe := partnerEntries_parseGep ["A"] [] [] 0 (by decide)
  rw [show ((mainDaysElapsed ⟨2026, 2, 1⟩ : ℕ) : ℤ) = 0 by norm_num [mainDaysElapsed]]
  exact calculateMetrics_zeroDiv _ _ _ _ hpe

/-- Claim C2 counterexample: the code rounds the run-rate with Python's
`round`, which is half-to-even, not half-up.  With `mtd_total = 3` and
`days_elapsed = 2` (period length hardcoded to 31) the unrounded run-rate is
46.5: the code returns 46 while the claimed half-up rounding gives 47. -/
theorem runRate_roundHalfUp_cex :
    (calculateMetrics (parseGepComparison (List.replicate 3 "A") [] [] 0) (some 2)
      ⟨2025, 12, 23⟩ (some (424, 943, 987))).map Metrics.runRate = Except.ok 46 ∧
    roundHalfUp ((3 : ℚ) / 2 * 31) = 47 := by
  constructor
  · have hcp := comparePartners_single 3 (by norm_num) "A"
    have hpe := partnerEntries_parseGep (List.replicate 3 "A") [] [] 0 ?_
    · rw [hcp] at hpe
      rw [calculateMetrics_ok _ 2 _ _ _ hpe (by norm_num)]
      have h46 : roundHalfEven ((3 : ℚ) / 2 * 31) = 46 := by
        refine roundHalfEven_of_half_even _ 46 ?_ (by norm_num) (by norm_num)
        unfold floorQ
        rw [Int.floor_eq_iff] <;> norm_num
      simpa [Except.map] using h46
    · intro p hp
      rw [List.append_nil, List.append_nil, List.mem_replicate] at hp
      rw [hp.2]
      decide
  · unfold roundHalfUp floorQ
    rw [Int.floor_eq_iff] <;> norm_num

/-- Claim C2 (amended): the projector computes
`run_rate = round(mtd_total / days_elapsed * days_in_period)` with
round-half-to-even (Python `round`), the period length hardcoded to 31 days;
at the spec's concrete input (291 adds, 22 days, forecast 424) it returns
run_rate 410, attainment 69 and run-rate-vs-forecast 97. -/
theorem runRate_rounding :
    (∀ (comparison : List (String × CompEntry))
      (d : ℤ) (today : Date) (fetched : Option (ℕ × ℕ × ℕ)),
      (calculateMetrics comparison (some d) today fetched).map Metrics.runRate =
        (calculateMetrics comparison (some d) today fetched).map
          (fun m => roundHalfEven ((m.mtdAdds : ℚ) / (d : ℚ) * 31))) ∧
    (calculateMetrics (parseGepComparison (List.replicate 291 "PartnerA") [] [] 0) (some 22)
      ⟨2025, 12, 23⟩ (some (424, 943, 987))).map
        (fun m => (m.mtdAdds, m.runRate, m.attainmentForecast, m.runRateVsForecast)) =
      Except.ok (291, 410, 69, 97) := by
  constructor
  · intro comparison d today fetched
    cases hpe : partnerEntries comparison with
    | error e =>
      unfold calculateMetrics
      simp [hpe, Except.instMonad, Except.bind, Except.map]
    | ok partners =>
      by_cases hd : d = 0
      · subst hd
        rw [calculateMetrics_zeroDiv comparison today fetched partners hpe]
        simp [Except.map]
      · rw [calculateMetrics_ok comparison d today fetched partners hpe hd]
        simp [Except.map, Function.comp_def]
  · have hcp := comparePartners_single 291 (by norm_num) "PartnerA"
    have hpe := partnerEntries_parseGep (List.replicate 291 "PartnerA") [] [] 0 ?_
    · rw [hcp] at hpe
      rw [calculateMetrics_ok _ 22 _ _ _ hpe (by norm_num)]
      have ht : getMonthlyTargets (some (424, 943, 987)) 2025 12 = (424, 943, 987) := by
        norm_num [getMonthlyTargets]
      have h410 : roundHalfEven ((291 : ℚ) / 22 * 31) = 410 := by
        refine roundHalfEven_of_lt _ 410 ?_ (by norm_num)
        unfold floorQ
        rw [Int.floor_eq_iff] <;> norm_num
      have h69 : roundHalfEven ((291 : ℚ) / 424 * 100) = 69 := by
        refine roundHalfEven_of_gt _ 68 ?_ (by norm_num)
        unfold floorQ
        rw [Int.floor_eq_iff] <;> norm_num
      have h97 : roundHalfEven ((291 : ℚ) / 22 * 31 / 424 * 100) = 97 := by
        refine roundHalfEven_of_gt _ 96 ?_ (by norm_num)
        unfold floorQ
        rw [Int.floor_eq_iff] <;> norm_num
      rw [ht]
      simp [Except.map]
      exact ⟨h410, h69, h97⟩
    · intro p hp
      rw [List.append_nil, List.append_nil, List.mem_replicate] at hp
      rw [hp.2]
      decide

/-- Claim C5 counterexample: the projector raises no typed `InvalidInput`.
A negative `days_elapsed` (which is `< 1`) succeeds outright, and a fetched
target of 0 is silently replaced by the hardcoded fallback (forecast 948 for
January 2026) instead of failing. -/
theorem calcMetrics_no_invalidInput :
    (calculateMetrics (parseGepComparison ["A"] [] [] 0) (some (-1)) ⟨2026, 1, 9⟩
      (some (424, 943, 987))).isOk = true ∧
    (calculateMetrics (parseGepComparison ["A"] [] [] 0) (some 5) ⟨2026, 1, 9⟩
      (some (0, 943, 987))).map Metrics.forecast = Except.ok 948 := by
  have hpe := partnerEntries_parseGep ["A"] [] [] 0 (by decide)
  constructor
  · rw [calculateMetrics_ok _ (-1) _ _ _ hpe (by norm_num)]
    rfl
  · rw [calculateMetrics_ok _ 5 _ _ _ hpe (by norm_num)]
    have ht : getMonthlyTargets (some (0, 943, 987)) 2026 1 = (948, 1278, 987) := by decide
    rw [Except.map]
    simp [ht]

/-- Claim C5 (amended): with a well-formed comparison dict, the explicit-path
`calculate_metrics` fails (with `ZeroDivisionError`, the only error it can
raise — there is no typed `InvalidInput`) exactly when `days_elapsed = 0`:
every negative `days_elapsed` succeeds, and target divisors are never zero
because zero or failed fetches fall back to nonzero hardcoded values. -/
theorem calcMetrics_failure_iff (comparison : List (String × CompEntry)) (d : ℤ)
    (today : Date) (fetched : Option (ℕ × ℕ × ℕ)) (h : wellFormedB comparison = true) :
    (calculateMetrics comparison (some d) today fetched).isOk = true ↔ d ≠ 0 := by
  obtain ⟨ps, hps⟩ := partnerEntries_ok_of_wellFormed comparison h
  constructor
  · intro hok hd0
    subst hd0
    rw [calculateMetrics_zeroDiv comparison today fetched ps hps] at hok
    simp [Except.isOk, Except.toBool] at hok
  · intro hd
    rw [calculateMetrics_ok comparison d today fetched ps hps hd]
    rfl

theorem calcMetrics_failure_iff_witness :
    wellFormedB (parseGepComparison ["A"] [] [] 0) = true ∧
    ((calculateMetrics (parseGepComparison ["A"] [] [] 0) (some 7) ⟨2026, 1, 9⟩ none).isOk =
      true ↔ (7 : ℤ) ≠ 0) :=
  ⟨wellFormedB_parseGep ["A"] [] [] 0,
    calcMetrics_failure_iff (parseGepComparison ["A"] [] [] 0) 7 ⟨2026, 1, 9⟩ none
      (wellFormedB_parseGep ["A"] [] [] 0)⟩

/-- Claim C6: the comparator's `pct_change` follows the sentinel convention —
0 when current and prior are both 0, +100 when prior is 0 and current > 0,
and `(current - prior) / prior * 100` otherwise; in particular a new partner
with current 5 and prior 0 gets change 5 and pct_change 100. -/
theorem pctChange_sentinel :
    (∀ current prior : ℕ, pctChange current prior = pctChangeSpec current prior) ∧
    (∀ (cur prior py : List String) (p : String) (e : PartnerEntry),
      (p, e) ∈ comparePartners cur prior py → e.pct = pctChangeSpec e.current e.prior) ∧
    List.lookup "NewPartner" (comparePartners (List.replicate 5 "NewPartner") [] []) =
      some { current := 5, prior := 0, change := 5, pct := 100, yoyPct := none } := by
  refine ⟨pctChange_eq_spec, ?_, ?_⟩
  · intro cur prior py p e h
    rw [comparePartners_entry cur prior py p e h]
    exact pctChange_eq_spec _ _
  · rw [comparePartners_single 5 (by norm_num) "NewPartner"]
    norm_num [List.lookup]

theorem pctChange_sentinel_witness :
    ("A", ({ current := 1, prior := 2, change := -1, pct := -50, yoyPct := none } :
      PartnerEntry)) ∈ comparePartners ["A"] ["A", "A"] [] ∧
    ({ current := 1, prior := 2, change := -1, pct := -50, yoyPct := none } :
      PartnerEntry).pct = pctChangeSpec 1 2 := by
  have hc : comparePartners ["A"] ["A", "A"] [] =
      [("A", { current := 1, prior := 2, change := -1, pct := -50, yoyPct := none })] := by
    unfold comparePartners
    norm_num [dedupFirst, dedupFirstAux, List.count_cons, pctChange, yoyPctFor]
  refine ⟨?_, ?_⟩
  · rw [hc]
    exact List.mem_cons_self _ _
  · refine pctChange_sentinel.2.1 ["A"] ["A", "A"] [] "A" _ ?_
    rw [hc]
    exact List.mem_cons_self _ _

/-- Claim C7 counterexample: when the fresh fetch fails (returns no targets),
`get_monthly_targets` for January 2026 returns the hardcoded fallback
`(948, 1278, 987)` as an ordinary value tuple — the claimed typed, surfaced
failure does not exist, and the hardcoded 948 is exactly what the caller
receives, indistinguishable from a live fetch. -/
theorem targets_fallback_948 : getMonthlyTargets none 2026 1 = (948, 1278, 987) := by decide

/-- Claim C7 (amended): a successful all-nonzero fetch is passed through, but
when the fetch fails the engine silently substitutes hardcoded fallbacks —
`FALLBACK_TARGETS` for December 2025 / January 2026 and the last-resort
`(948, 1534, 987)` otherwise — and a fetched target of 0 is likewise replaced
by the fallback; in every case the result is a plain tuple, never a typed
failure. -/
theorem targets_fallback (y m f s l : ℕ) (hf : f ≠ 0) (hs : s ≠ 0) (hl : l ≠ 0) :
    getMonthlyTargets (some (f, s, l)) y m = (f, s, l) ∧
    getMonthlyTargets none 2025 12 = (424, 943, 987) ∧
    (¬(y = 2025 ∧ m = 12) → ¬(y = 2026 ∧ m = 1) →
      getMonthlyTargets none y m = (948, 1534, 987)) ∧
    getMonthlyTargets (some (0, s, l)) y m = fallbackTargets y m := by
  refine ⟨?_, by decide, ?_, ?_⟩
  · simp [getMonthlyTargets, hf, hs, hl]
  · intro h1 h2
    simp [getMonthlyTargets, fallbackTargets, h1, h2]
  · simp [getMonthlyTargets]

theorem targets_fallback_witness :
    getMonthlyTargets (some (5, 6, 7)) 2024 7 = (5, 6, 7) ∧
    getMonthlyTargets none 2024 7 = (948, 1534, 987) ∧
    getMonthlyTargets (some (0, 6, 7)) 2024 7 = fallbackTargets 2024 7 := by
  obtain ⟨h1, _, h3, h4⟩ := targets_fallback 2024 7 5 6 7 (by norm_num) (by norm_num)
    (by norm_num)
  exact ⟨h1, h3 (by norm_num) (by norm_num), h4⟩

/-- Claim C10: the comparison mapping always carries the reserved
`_yoy_total` and `_today_partial` metadata keys, and `calculate_metrics`
filters keys by the `_` prefix: its MTD total counts only per-partner
entries (the current window's event count), and none of its leader, laggard
or top-partner lists contains a reserved key. -/
theorem metadataKeys_filtered (cur prior py : List String) (t : ℕ) (d : ℤ) (today : Date)
    (fetched : Option (ℕ × ℕ × ℕ))
    (hu : ∀ p ∈ cur ++ prior ++ py, startsWithUnderscore p = false) (hd : d ≠ 0) :
    (getYoyMeta (parseGepComparison cur prior py t)).isSome = true ∧
    (getTodayMeta (parseGepComparison cur prior py t)).isSome = true ∧
    (calculateMetrics (parseGepComparison cur prior py t) (some d) today fetched).map
      Metrics.mtdAdds = Except.ok cur.length ∧
    (calculateMetrics (parseGepComparison cur prior py t) (some d) today fetched).map
      (fun m => (m.leaders ++ m.laggards ++ m.topPartners).all
        fun ke => !startsWithUnderscore ke.1) = Except.ok true := by
  have hkeys : ∀ q ∈ comparePartners cur prior py, startsWithUnderscore q.1 = false :=
    fun q hq => hu q.1 (comparePartners_keys cur prior py q.1 q.2 hq)
  have hpe := partnerEntries_parseGep cur prior py t hu
  refine ⟨?_, ?_, ?_, ?_⟩
  · unfold parseGepComparison
    rw [getYoyMeta_tagged _ _ hkeys, getYoyMeta_metas]
    rfl
  · unfold parseGepComparison
    rw [getTodayMeta_tagged _ _ hkeys, getTodayMeta_metas]
    rfl
  · rw [calculateMetrics_ok _ d _ _ _ hpe hd]
    rw [Except.map]
    rw [comparePartners_sum_current cur prior py]
  · rw [calculateMetrics_ok _ d _ _ _ hpe hd]
    rw [Except.map]
    have hl := keys_take_sort (fun a b => decide (b.2.pct ≤ a.2.pct)) 3
      ((comparePartners cur prior py).filter fun pe => decide (5 ≤ pe.2.current))
      fun p hp => hkeys p (List.mem_of_mem_filter hp)
    have hg := keys_take_sort (fun a b => decide (a.2.pct ≤ b.2.pct)) 3
      ((comparePartners cur prior py).filter fun pe => decide (0 < pe.2.prior))
      fun p hp => hkeys p (List.mem_of_mem_filter hp)
    have htop := keys_take_sort (fun a b => decide (b.2.current ≤ a.2.current)) 5
      (comparePartners cur prior py) hkeys
    congr 1
    rw [List.all_eq_true]
    intro ke hke
    rw [List.mem_append] at hke
    rcases hke with hke | hke
    · rw [List.mem_append] at hke
      rcases hke with hke | hke
      · simp [hl ke hke]
      · simp [hg ke hke]
    · simp [htop ke hke]

theorem metadataKeys_filtered_witness :
    (getYoyMeta (parseGepComparison ["A", "B"] ["A"] [] 2)).isSome = true ∧
    (getTodayMeta (parseGepComparison ["A", "B"] ["A"] [] 2)).isSome = true ∧
    (calculateMetrics (parseGepComparison ["A", "B"] ["A"] [] 2) (some 5) ⟨2026, 1, 9⟩
      none).map Metrics.mtdAdds = Except.ok 2 ∧
    (calculateMetrics (parseGepComparison ["A", "B"] ["A"] [] 2) (some 5) ⟨2026, 1, 9⟩
      none).map (fun m => (m.leaders ++ m.laggards ++ m.topPartners).all
        fun ke => !startsWithUnderscore ke.1) = Except.ok true :=
  metadataKeys_filtered ["A", "B"] ["A"] [] 2 5 ⟨2026, 1, 9⟩ none (by decide) (by norm_num)

end Report

namespace Dash

/-! ## Lemmas: the tidy pipeline and the aligned grid -/

theorem prepareTidyFrame_map (rows : List RawRow) (sname : String) :
    prepareTidyFrame rows sname =
      rows.map fun r => ⟨r.date.map monthEnd, r.metric, r.value.getD 0, sname⟩ := by
  unfold prepareTidyFrame coerceNumericValues parseDatesToMonthEnd
  rw [List.map_map, List.map_map]
  rfl

theorem prepareTidyFrame_series (rows : List RawRow) (sname : String) :
    ∀ g ∈ prepareTidyFrame rows sname, g.series = sname := by
  rw [prepareTidyFrame_map]
  intro g hg
  obtain ⟨r, _, rfl⟩ := List.mem_map.mp hg
  rfl

theorem prepareTidyFrame_keys (rows : List RawRow) (sname : String) :
    (prepareTidyFrame rows sname).map rowKey = inputKeys rows := by
  rw [prepareTidyFrame_map, List.map_map]
  rfl

theorem allIndex_mem_iff (actuals plan : List RawRow) (k : Option MDate × String) :
    k ∈ allIndexOf actuals plan ↔ k ∈ inputKeys actuals ∨ k ∈ inputKeys plan := by
  rw [allIndexOf, mem_dedupFirst, combinedOf, List.map_append, List.mem_append,
    prepareTidyFrame_keys, prepareTidyFrame_keys]

theorem seriesVals_mem_actual (actuals plan : List RawRow) (ha : actuals ≠ []) :
    "Actual" ∈ seriesValsOf actuals plan := by
  rw [seriesValsOf, mem_dedupFirst, combinedOf, List.map_append, List.mem_append]
  left
  obtain ⟨r, hr⟩ := List.exists_mem_of_ne_nil actuals ha
  rw [prepareTidyFrame_map]
  exact List.mem_map.mpr ⟨_, List.mem_map.mpr ⟨r, hr, rfl⟩, rfl⟩

theorem seriesVals_mem_plan (actuals plan : List RawRow) (hp : plan ≠ []) :
    "Plan" ∈ seriesValsOf actuals plan := by
  rw [seriesValsOf, mem_dedupFirst, combinedOf, List.map_append, List.mem_append]
  right
  obtain ⟨r, hr⟩ := List.exists_mem_of_ne_nil plan hp
  rw [prepareTidyFrame_map]
  exact List.mem_map.mpr ⟨_, List.mem_map.mpr ⟨r, hr, rfl⟩, rfl⟩

theorem seriesVals_sub (actuals plan : List RawRow) :
    ∀ s ∈ seriesValsOf actuals plan, s = "Actual" ∨ s = "Plan" := by
  intro s hs
  rw [seriesValsOf, mem_dedupFirst] at hs
  obtain ⟨g, hg, rfl⟩ := List.mem_map.mp hs
  rw [combinedOf, List.mem_append] at hg
  rcases hg with hg | hg
  · exact Or.inl (prepareTidyFrame_series _ _ g hg)
  · exact Or.inr (prepareTidyFrame_series _ _ g hg)

theorem mem_meshOf (actuals plan : List RawRow) (k : Option MDate × String) (s : String) :
    (k, s) ∈ meshOf actuals plan ↔
      k ∈ allIndexOf actuals plan ∧ s ∈ seriesValsOf actuals plan := by
  rw [meshOf, List.mem_flatMap]
  constructor
  · rintro ⟨k', hk', hmem⟩
    obtain ⟨s', hs', heq⟩ := List.mem_map.mp hmem
    cases heq
    exact ⟨hk', hs'⟩
  · rintro ⟨hk, hs⟩
    exact ⟨k, hk, List.mem_map.mpr ⟨s, hs, rfl⟩⟩

theorem cellOf_mem_key (combined : List TidyRow) (ks : (Option MDate × String) × String) :
    ∀ g ∈ cellOf combined ks, rowKey g = ks.1 ∧ g.series = ks.2 := by
  intro g hg
  unfold cellOf at hg
  by_cases he : (combined.filter fun r =>
      decide (rowKey r = ks.1 ∧ r.series = ks.2)).isEmpty
  · rw [if_pos he, List.mem_singleton] at hg
    subst hg
    exact ⟨Prod.mk.eta, rfl⟩
  · rw [if_neg he] at hg
    have := List.of_mem_filter hg
    exact of_decide_eq_true this

theorem cellOf_exists (combined : List TidyRow) (ks : (Option MDate × String) × String) :
    ∃ g ∈ cellOf combined ks, rowKey g = ks.1 ∧ g.series = ks.2 := by
  unfold cellOf
  by_cases he : (combined.filter fun r =>
      decide (rowKey r = ks.1 ∧ r.series = ks.2)).isEmpty
  · rw [if_pos he]
    exact ⟨_, List.mem_singleton_self _, Prod.mk.eta, rfl⟩
  · rw [if_neg he]
    have hne : (combined.filter fun r => decide (rowKey r = ks.1 ∧ r.series = ks.2)) ≠ [] := by
      intro hnil
      exact he (by rw [hnil]; rfl)
    obtain ⟨g, hg⟩ := List.exists_mem_of_ne_nil _ hne
    have hp := List.of_mem_filter hg
    exact ⟨g, hg, of_decide_eq_true hp⟩

theorem alignSeries_mem_of_mesh (actuals plan : List RawRow) (k : Option MDate × String)
    (s : String) (hk : k ∈ allIndexOf actuals plan) (hs : s ∈ seriesValsOf actuals plan) :
    ∃ g ∈ alignSeries actuals plan, rowKey g = k ∧ g.series = s := by
  obtain ⟨g, hg, hprop⟩ := cellOf_exists (combinedOf actuals plan) (k, s)
  refine ⟨g, ?_, hprop⟩
  rw [alignSeries, List.mem_flatMap]
  exact ⟨(k, s), (mem_meshOf actuals plan k s).mpr ⟨hk, hs⟩, hg⟩

/-! ## Claim theorems for the dashboard core -/

/-- Claim C4 counterexample: for the empty input table `build_variance_summary`
returns `None` — a null/absent result, not a zero-total summary. -/
theorem buildVarianceSummary_empty_none :
    buildVarianceSummary [] (2025, 1, 31) 5 = none := rfl

/-- Claim C4 (amended): for every nonempty input table and every requested
period, `build_variance_summary` returns a summary (never fails, throws or
returns null); when no rows match the period the summary has zero totals and
empty contributor rank lists, and whenever the plan total is zero the
variance percent is the NaN sentinel (`none`), not 0 and not infinite. -/
theorem buildVarianceSummary_safe (tidy : List TidyRow) (period : MDate) (topN : ℕ)
    (h : tidy ≠ []) :
    (buildVarianceSummary tidy period topN).isSome = true ∧
    ((∀ r ∈ tidy, r.date ≠ some period) →
      (buildVarianceSummary tidy period topN).map
        (fun s => (s.totalPlan, s.totalActual, s.totalVariance,
          s.topPositiveContributors, s.topNegativeContributors)) =
        some (0, 0, 0, [], [])) ∧
    (totalFor tidy period "Plan" = 0 →
      (buildVarianceSummary tidy period topN).map VarianceSummary.totalVariancePct =
        some none) := by
  have hne : tidy.isEmpty = false := by
    rcases tidy with _ | ⟨r, rs⟩
    · exact absurd rfl h
    · rfl
  refine ⟨?_, ?_, ?_⟩
  · simp [buildVarianceSummary, buildVarianceSummaryWith, hne]
  · intro hno
    have hfil : ∀ sname : String,
        tidy.filter (fun r => decide (r.date = some period ∧ r.series = sname)) = [] := by
      intro sname
      rw [List.filter_eq_nil_iff]
      intro r hr
      simp only [decide_eq_true_eq, not_and]
      intro hdate
      exact absurd hdate (hno r hr)
    have hpf : periodFilter tidy period = [] := by
      unfold periodFilter
      rw [List.filter_eq_nil_iff]
      intro r hr
      simp only [decide_eq_true_eq]
      exact hno r hr
    have hplan : totalFor tidy period "Plan" = 0 := by
      unfold totalFor
      rw [hfil]
      rfl
    have hact : totalFor tidy period "Actual" = 0 := by
      unfold totalFor
      rw [hfil]
      rfl
    have hvar : computeVarianceByMetricForPeriodWith sortValuesDesc tidy period = [] := by
      unfold computeVarianceByMetricForPeriodWith
      rw [hpf]
      rfl
    have hd0 : sortValuesDesc [] = [] := rfl
    have ha0 : sortValuesAsc [] = [] := rfl
    simp [buildVarianceSummary, buildVarianceSummaryWith, hne, hplan, hact, hvar, hd0, ha0]
  · intro hplan0
    simp [buildVarianceSummary, buildVarianceSummaryWith, hne, hplan0]

theorem buildVarianceSummary_safe_witness :
    (buildVarianceSummary [⟨some (2025, 2, 28), "Rev", 5, "Actual"⟩]
      (2025, 1, 31) 5).isSome = true ∧
    (buildVarianceSummary [⟨some (2025, 2, 28), "Rev", 5, "Actual"⟩] (2025, 1, 31) 5).map
      (fun s => (s.totalPlan, s.totalActual, s.totalVariance,
        s.topPositiveContributors, s.topNegativeContributors)) = some (0, 0, 0, [], []) ∧
    (buildVarianceSummary [⟨some (2025, 2, 28), "Rev", 5, "Actual"⟩] (2025, 1, 31) 5).map
      VarianceSummary.totalVariancePct = some none := by
  obtain ⟨h1, h2, h3⟩ := buildVarianceSummary_safe
    [⟨some (2025, 2, 28), "Rev", 5, "Actual"⟩] (2025, 1, 31) 5 (by simp)
  refine ⟨h1, h2 ?_, h3 ?_⟩
  · intro r hr
    rw [List.mem_singleton] at hr
    subst hr
    decide
  · rfl

/-- Claim C9 counterexample: a row whose date is unparseable (`NaT` after
coercion) is not dropped — the output grid of `align_series` still contains a
row with the missing-date key. -/
theorem unparseableDate_kept_cex :
    ∃ g ∈ alignSeries [⟨none, "Revenue", some 100⟩]
      [⟨some (2025, 1, 10), "Revenue", some 80⟩], g.date = none := by decide

/-- Claim C9 (amended): the tidy pipeline keeps every input row — an
unparseable date is coerced to the missing-date sentinel (`NaT`), not
dropped, and such a row still reaches the aligned grid; a non-numeric value
becomes 0; a parseable date is normalized to its month-end timestamp. -/
theorem coercion_kept (actuals plan : List RawRow) (sname : String) (r : RawRow)
    (hr : r ∈ actuals) (hdate : r.date = none) :
    (prepareTidyFrame actuals sname).length = actuals.length ∧
    prepareTidyFrame actuals sname =
      actuals.map (fun x => ⟨x.date.map monthEnd, x.metric, x.value.getD 0, sname⟩) ∧
    ∃ g ∈ alignSeries actuals plan, g.date = none ∧ g.metric = r.metric := by
  refine ⟨?_, prepareTidyFrame_map actuals sname, ?_⟩
  · rw [prepareTidyFrame_map]
    exact List.length_map _ _
  · have hrow : (⟨none, r.metric, r.value.getD 0, "Actual"⟩ : TidyRow) ∈
        combinedOf actuals plan := by
      rw [combinedOf, List.mem_append]
      left
      rw [prepareTidyFrame_map]
      refine List.mem_map.mpr ⟨r, hr, ?_⟩
      rw [hdate]
      rfl
    have hk : ((none : Option MDate), r.metric) ∈ allIndexOf actuals plan := by
      rw [allIndexOf, mem_dedupFirst]
      exact List.mem_map.mpr ⟨_, hrow, rfl⟩
    have hs : "Actual" ∈ seriesValsOf actuals plan := by
      rw [seriesValsOf, mem_dedupFirst]
      exact List.mem_map.mpr ⟨_, hrow, rfl⟩
    obtain ⟨g, hg, hkey, _⟩ := alignSeries_mem_of_mesh actuals plan (none, r.metric)
      "Actual" hk hs
    refine ⟨g, hg, ?_, ?_⟩
    · exact congrArg Prod.fst hkey
    · exact congrArg Prod.snd hkey

theorem countP_map_decide [DecidableEq β] (l : List α) (f : α → β) (k : β) :
    (l.countP fun x => decide (f x = k)) = ((l.map f).countP fun x => decide (x = k)) := by
  rw [List.countP_map]
  rfl

theorem countP_le_one_of_nodup [DecidableEq α] (l : List α) (hl : l.Nodup) (a : α) :
    (l.countP fun x => decide (x = a)) ≤ 1 := by
  induction l with
  | nil => simp
  | cons x xs ih =>
    rw [List.countP_cons]
    rw [List.nodup_cons] at hl
    by_cases hx : x = a
    · subst hx
      rw [List.countP_eq_zero.mpr, if_pos (by simp)]
      intro b hb
      simp only [decide_eq_true_eq]
      intro hb'
      exact hl.1 (hb' ▸ hb)
    · rw [if_neg (by simpa using hx)]
      simpa using ih hl.2

theorem countP_eq_one_of_nodup_mem [DecidableEq α] (l : List α) (hl : l.Nodup) (a : α)
    (ha : a ∈ l) : (l.countP fun x => decide (x = a)) = 1 := by
  induction l with
  | nil => cases ha
  | cons x xs ih =>
    rw [List.countP_cons]
    rw [List.nodup_cons] at hl
    rcases List.mem_cons.mp ha with rfl | ha'
    · rw [List.countP_eq_zero.mpr, if_pos (by simp)]
      · intro b hb
        simp only [decide_eq_true_eq]
        intro hb'
        exact hl.1 (hb' ▸ hb)
    · rw [ih hl.2 ha', if_neg]
      simp only [decide_eq_true_eq]
      intro hxa
      exact hl.1 (hxa ▸ ha')

theorem sum_map_ite_countP [DecidableEq α] (a : α) (l : List α) :
    (l.map fun x => if x = a then 1 else 0).sum = l.countP fun x => decide (x = a) := by
  induction l with
  | nil => simp
  | cons x xs ih =>
    rw [List.map_cons, List.sum_cons, List.countP_cons, ih]
    by_cases h : x = a
    · simp [h, Nat.add_comm]
    · simp [h]

theorem countP_pair_flatMap [DecidableEq α] [DecidableEq β] (ks : List α) (ss : List β)
    (a : α) (b : β) :
    ((ks.flatMap fun k => ss.map fun s => (k, s)).countP fun x => decide (x = (a, b))) =
      (ks.countP fun k => decide (k = a)) * (ss.countP fun s => decide (s = b)) := by
  induction ks with
  | nil => simp
  | cons k kt ih =>
    rw [List.flatMap_cons, List.countP_append, ih, List.countP_cons]
    have hmap : ((ss.map fun s => (k, s)).countP fun x => decide (x = (a, b))) =
        if k = a then ss.countP fun s => decide (s = b) else 0 := by
      rw [List.countP_map]
      by_cases hk : k = a
      · subst hk
        rw [if_pos rfl]
        refine List.countP_congr ?_
        intro s _
        simp [Prod.ext_iff]
      · rw [if_neg hk, List.countP_eq_zero]
        intro s _
        simp [Prod.ext_iff, hk]
    rw [hmap]
    by_cases hk : k = a
    · subst hk
      simp [Nat.add_mul, Nat.add_comm]
    · simp [hk]

theorem countP_prepare (rows : List RawRow) (sname : String) (k : Option MDate × String)
    (s : String) :
    (prepareTidyFrame rows sname).countP (fun g => decide (rowKey g = k ∧ g.series = s)) =
      if s = sname then (inputKeys rows).countP (fun x => decide (x = k)) else 0 := by
  rw [prepareTidyFrame_map, List.countP_map]
  by_cases hs : s = sname
  · subst hs
    rw [if_pos rfl]
    unfold inputKeys
    rw [← countP_map_decide rows rawKey k]
    refine List.countP_congr ?_
    intro r _
    simp [rowKey, rawKey]
  · rw [if_neg hs, List.countP_eq_zero]
    intro r _
    simp only [Function.comp_apply, decide_eq_true_eq, not_and]
    intro _
    exact fun hser => hs hser.symm

theorem countP_combined_le_one (actuals plan : List RawRow) (k : Option MDate × String)
    (s : String) (hna : (inputKeys actuals).Nodup) (hnp : (inputKeys plan).Nodup) :
    (combinedOf actuals plan).countP
      (fun g => decide (rowKey g = k ∧ g.series = s)) ≤ 1 := by
  rw [combinedOf, List.countP_append, countP_prepare, countP_prepare]
  have h1 := countP_le_one_of_nodup (inputKeys actuals) hna k
  have h2 := countP_le_one_of_nodup (inputKeys plan) hnp k
  by_cases hA : s = "Actual"
  · subst hA
    rw [if_pos rfl, if_neg (by decide)]
    omega
  · rw [if_neg hA]
    by_cases hP : s = "Plan"
    · rw [if_pos hP]
      omega
    · rw [if_neg hP]
      omega

theorem countP_cellOf_ne (combined : List TidyRow) (ks : (Option MDate × String) × String)
    (k : Option MDate × String) (s : String) (hne : ks ≠ (k, s)) :
    (cellOf combined ks).countP (fun g => decide (rowKey g = k ∧ g.series = s)) = 0 := by
  rw [List.countP_eq_zero]
  intro g hg
  have hk := cellOf_mem_key combined ks g hg
  simp only [decide_eq_true_eq, not_and]
  intro h1 h2
  apply hne
  have e1 : ks.1 = k := by rw [← hk.1, h1]
  have e2 : ks.2 = s := by rw [← hk.2, h2]
  rw [← e1, ← e2]

theorem countP_cellOf_eq (combined : List TidyRow) (k : Option MDate × String) (s : String)
    (hle : combined.countP (fun g => decide (rowKey g = k ∧ g.series = s)) ≤ 1) :
    (cellOf combined (k, s)).countP (fun g => decide (rowKey g = k ∧ g.series = s)) = 1 := by
  unfold cellOf
  by_cases he : (combined.filter fun r =>
      decide (rowKey r = (k, s).1 ∧ r.series = (k, s).2)).isEmpty
  · rw [if_pos he]
    show List.countP (fun g : TidyRow => decide (rowKey g = k ∧ g.series = s))
      [⟨k.1, k.2, 0, s⟩] = 1
    rw [List.countP_cons]
    simp [rowKey, Prod.mk.eta]
  · rw [if_neg he]
    have hall : ∀ g ∈ combined.filter (fun r =>
        decide (rowKey r = (k, s).1 ∧ r.series = (k, s).2)),
        (fun g : TidyRow => decide (rowKey g = k ∧ g.series = s)) g = true := by
      intro g hg
      have hm := List.of_mem_filter hg
      exact hm
    rw [List.countP_eq_length.mpr hall, ← List.countP_eq_length_filter]
    have hge : 1 ≤ combined.countP fun r => decide (rowKey r = (k, s).1 ∧ r.series = (k, s).2) := by
      rw [List.countP_eq_length_filter]
      rcases hfe : combined.filter fun r =>
          decide (rowKey r = (k, s).1 ∧ r.series = (k, s).2) with _ | ⟨g, gs⟩
      · rw [hfe] at he
        exact absurd rfl he
      · simp
    have hle' : combined.countP (fun r =>
        decide (rowKey r = (k, s).1 ∧ r.series = (k, s).2)) ≤ 1 := hle
    omega

/-- Claim C3 counterexample: alignment completeness fails as stated.  With a
nonempty actuals input and an empty plan input, the grid contains no Plan row
at all for the key present in actuals (the series list is data-derived); and
with two actual rows sharing a (period, category) key, the grid contains that
(period, category, Actual) tuple twice. -/
theorem alignSeries_claim_cex :
    ((some ((2025 : ℕ), (1 : ℕ), (31 : ℕ)), "Revenue") ∈
      inputKeys [⟨some (2025, 1, 15), "Revenue", some 100⟩]) ∧
    ((alignSeries [⟨some (2025, 1, 15), "Revenue", some 100⟩] []).all
      fun g => !(g.series == "Plan")) = true ∧
    ((alignSeries [⟨some (2025, 1, 15), "Revenue", some 100⟩,
        ⟨some (2025, 1, 20), "Revenue", some 50⟩]
        [⟨some (2025, 1, 5), "Expense", some 70⟩]).countP
      (fun g => decide (rowKey g = (some (2025, 1, 31), "Revenue") ∧
        g.series = "Actual"))) = 2 := by decide

/-- Claim C3 (amended): when both inputs are nonempty and neither input
repeats a (period, category) key, the grid of `align_series` is rectangular:
it contains exactly one row for every key present in either input and each of
the two series (so both an Actual and a Plan row, with no duplicate
(period, category, series) tuples), the cell is the zero-filled row whenever
the source series had no row for that key, and the grid contains nothing
else. -/
theorem alignSeries_complete (actuals plan : List RawRow)
    (ha : actuals ≠ []) (hp : plan ≠ [])
    (hna : (inputKeys actuals).Nodup) (hnp : (inputKeys plan).Nodup) :
    (∀ k : Option MDate × String, k ∈ inputKeys actuals ∨ k ∈ inputKeys plan →
      ∀ s : String, s = "Actual" ∨ s = "Plan" →
        (alignSeries actuals plan).countP
          (fun g => decide (rowKey g = k ∧ g.series = s)) = 1) ∧
    (∀ k : Option MDate × String, (k ∈ inputKeys actuals ∨ k ∈ inputKeys plan) →
      k ∉ inputKeys plan →
        (⟨k.1, k.2, 0, "Plan"⟩ : TidyRow) ∈ alignSeries actuals plan) ∧
    (∀ k : Option MDate × String, (k ∈ inputKeys actuals ∨ k ∈ inputKeys plan) →
      k ∉ inputKeys actuals →
        (⟨k.1, k.2, 0, "Actual"⟩ : TidyRow) ∈ alignSeries actuals plan) ∧
    (∀ g ∈ alignSeries actuals plan,
      (rowKey g ∈ inputKeys actuals ∨ rowKey g ∈ inputKeys plan) ∧
      (g.series = "Actual" ∨ g.series = "Plan")) := by
  refine ⟨?_, ?_, ?_, ?_⟩
  · intro k hk s hs
    have hkA : k ∈ allIndexOf actuals plan := (allIndex_mem_iff actuals plan k).mpr hk
    have hsV : s ∈ seriesValsOf actuals plan := by
      rcases hs with rfl | rfl
      · exact seriesVals_mem_actual actuals plan ha
      · exact seriesVals_mem_plan actuals plan hp
    have hle := countP_combined_le_one actuals plan k s hna hnp
    have hcong : List.map ((List.countP fun g : TidyRow =>
          decide (rowKey g = k ∧ g.series = s)) ∘ cellOf (combinedOf actuals plan))
          (meshOf actuals plan) =
        List.map (fun ks => if ks = (k, s) then 1 else 0) (meshOf actuals plan) := by
      refine List.map_congr_left ?_
      intro ks _
      simp only [Function.comp_apply]
      by_cases he : ks = (k, s)
      · subst he
        rw [countP_cellOf_eq _ _ _ hle, if_pos rfl]
      · rw [countP_cellOf_ne _ _ _ _ he, if_neg he]
    have hk1 : (allIndexOf actuals plan).countP (fun x => decide (x = k)) = 1 :=
      countP_eq_one_of_nodup_mem _ (by unfold allIndexOf; exact nodup_dedupFirst _) k hkA
    have hs1 : (seriesValsOf actuals plan).countP (fun x => decide (x = s)) = 1 :=
      countP_eq_one_of_nodup_mem _ (by unfold seriesValsOf; exact nodup_dedupFirst _) s hsV
    rw [alignSeries, List.countP_flatMap, hcong, sum_map_ite_countP, meshOf,
      countP_pair_flatMap, hk1, hs1]
  · intro k hk hkp
    have hkA : k ∈ allIndexOf actuals plan := (allIndex_mem_iff actuals plan k).mpr hk
    have hsV := seriesVals_mem_plan actuals plan hp
    have hempty : (combinedOf actuals plan).filter (fun r =>
        decide (rowKey r = (k, "Plan").1 ∧ r.series = (k, "Plan").2)) = [] := by
      rw [List.filter_eq_nil_iff]
      intro g hg
      simp only [decide_eq_true_eq, not_and]
      intro h1
      rw [combinedOf, List.mem_append] at hg
      rcases hg with hg | hg
      · rw [prepareTidyFrame_series actuals "Actual" g hg]
        decide
      · intro _
        apply hkp
        rw [← prepareTidyFrame_keys plan "Plan", ← h1]
        exact List.mem_map.mpr ⟨g, hg, rfl⟩
    have hcell : cellOf (combinedOf actuals plan) (k, "Plan") =
        [⟨k.1, k.2, 0, "Plan"⟩] := by
      unfold cellOf
      rw [hempty]
      rfl
    rw [alignSeries, List.mem_flatMap]
    refine ⟨(k, "Plan"), (mem_meshOf actuals plan k "Plan").mpr ⟨hkA, hsV⟩, ?_⟩
    rw [hcell]
    exact List.mem_singleton_self _
  · intro k hk hka
    have hkA : k ∈ allIndexOf actuals plan := (allIndex_mem_iff actuals plan k).mpr hk
    have hsV := seriesVals_mem_actual actuals plan ha
    have hempty : (combinedOf actuals plan).filter (fun r =>
        decide (rowKey r = (k, "Actual").1 ∧ r.series = (k, "Actual").2)) = [] := by
      rw [List.filter_eq_nil_iff]
      intro g hg
      simp only [decide_eq_true_eq, not_and]
      intro h1
      rw [combinedOf, List.mem_append] at hg
      rcases hg with hg | hg
      · intro _
        apply hka
        rw [← prepareTidyFrame_keys actuals "Actual", ← h1]
        exact List.mem_map.mpr ⟨g, hg, rfl⟩
      · rw [prepareTidyFrame_series plan "Plan" g hg]
        decide
    have hcell : cellOf (combinedOf actuals plan) (k, "Actual") =
        [⟨k.1, k.2, 0, "Actual"⟩] := by
      unfold cellOf
      rw [hempty]
      rfl
    rw [alignSeries, List.mem_flatMap]
    refine ⟨(k, "Actual"), (mem_meshOf actuals plan k "Actual").mpr ⟨hkA, hsV⟩, ?_⟩
    rw [hcell]
    exact List.mem_singleton_self _
  · intro g hg
    rw [alignSeries, List.mem_flatMap] at hg
    obtain ⟨ks, hks, hcell⟩ := hg
    have hmesh := (mem_meshOf actuals plan ks.1 ks.2).mp (by rwa [Prod.mk.eta])
    have hkey := cellOf_mem_key _ ks g hcell
    constructor
    · rw [hkey.1]
      exact (allIndex_mem_iff actuals plan ks.1).mp hmesh.1
    · rw [hkey.2]
      exact seriesVals_sub actuals plan ks.2 hmesh.2

theorem alignSeries_complete_witness :
    (alignSeries [⟨some (2025, 1, 15), "Revenue", some 100⟩]
      [⟨some (2025, 2, 10), "Costs", some 7⟩]).countP
      (fun g => decide (rowKey g = (some (2025, 1, 31), "Revenue") ∧
        g.series = "Plan")) = 1 :=
  (alignSeries_complete [⟨some (2025, 1, 15), "Revenue", some 100⟩]
    [⟨some (2025, 2, 10), "Costs", some 7⟩] (by decide) (by decide) (by decide)
    (by decide)).1 (some (2025, 1, 31), "Revenue") (Or.inl (by decide)) "Plan" (Or.inr rfl)

/-! ## Lemmas: determinism and ordering of the variance ranking -/

theorem decideLe_total [LinearOrder β] (key : α → β) (a b : α) :
    decide (key a ≤ key b) = true ∨ decide (key b ≤ key a) = true := by
  rcases le_total (key a) (key b) with h | h
  · exact Or.inl (decide_eq_true h)
  · exact Or.inr (decide_eq_true h)

theorem decideLe_trans [LinearOrder β] (key : α → β) (a b c : α)
    (h1 : decide (key a ≤ key b) = true) (h2 : decide (key b ≤ key c) = true) :
    decide (key a ≤ key c) = true :=
  decide_eq_true (le_trans (of_decide_eq_true h1) (of_decide_eq_true h2))

theorem decideGe_total [LinearOrder β] (key : α → β) (a b : α) :
    decide (key b ≤ key a) = true ∨ decide (key a ≤ key b) = true :=
  (decideLe_total key a b).symm

theorem decideGe_trans [LinearOrder β] (key : α → β) (a b c : α)
    (h1 : decide (key b ≤ key a) = true) (h2 : decide (key c ≤ key b) = true) :
    decide (key c ≤ key a) = true :=
  decide_eq_true (le_trans (of_decide_eq_true h2) (of_decide_eq_true h1))

theorem totalFor_perm (tidy tidy' : List TidyRow) (h : tidy.Perm tidy') (period : MDate)
    (sname : String) : totalFor tidy period sname = totalFor tidy' period sname := by
  unfold totalFor
  exact ((h.filter _).map _).sum_eq

theorem metricSum_perm (df df' : List TidyRow) (h : df.Perm df') (m s : String) :
    metricSum df m s = metricSum df' m s := by
  unfold metricSum
  exact ((h.filter _).map _).sum_eq

theorem metricsSorted_eq (df df' : List TidyRow) (h : df.Perm df') :
    insertionSortBy (fun a b => decide (a ≤ b)) (dedupFirst (df.map fun r => r.metric)) =
      insertionSortBy (fun a b => decide (a ≤ b))
        (dedupFirst (df'.map fun r => r.metric)) := by
  have hperm : (insertionSortBy (fun a b => decide (a ≤ b))
      (dedupFirst (df.map fun r => r.metric))).Perm
      (insertionSortBy (fun a b => decide (a ≤ b))
        (dedupFirst (df'.map fun r => r.metric))) :=
    ((insertionSortBy_perm _ _).trans (dedupFirst_perm_of_perm (h.map _))).trans
      (insertionSortBy_perm _ _).symm
  have h1 : List.Sorted (fun a b : String => a ≤ b)
      (insertionSortBy (fun a b => decide (a ≤ b))
        (dedupFirst (df.map fun r => r.metric))) :=
    (insertionSortBy_sorted _ (decideLe_total fun s : String => s)
      (decideLe_trans fun s : String => s) _).imp fun hab => of_decide_eq_true hab
  have h2 : List.Sorted (fun a b : String => a ≤ b)
      (insertionSortBy (fun a b => decide (a ≤ b))
        (dedupFirst (df'.map fun r => r.metric))) :=
    (insertionSortBy_sorted _ (decideLe_total fun s : String => s)
      (decideLe_trans fun s : String => s) _).imp fun hab => of_decide_eq_true hab
  exact List.eq_of_perm_of_sorted hperm h1 h2

/-- The stable descending determinization satisfies the contract pandas
documents for `sort_values`. -/
theorem sortValuesDesc_spec :
    SortValuesSpec (fun a b => b.variance ≤ a.variance) sortValuesDesc := by
  intro l
  unfold sortValuesDesc
  exact ⟨insertionSortBy_perm _ l,
    (insertionSortBy_sorted _ (decideGe_total fun v : MetricVar => v.variance)
      (decideGe_trans fun v : MetricVar => v.variance) l).imp fun hab =>
        of_decide_eq_true hab⟩

/-- The stable ascending determinization satisfies the contract of the
ascending `sort_values` call. -/
theorem sortValuesAsc_spec :
    SortValuesSpec (fun a b => a.variance ≤ b.variance) sortValuesAsc := by
  intro l
  unfold sortValuesAsc
  exact ⟨insertionSortBy_perm _ l,
    (insertionSortBy_sorted _ (decideLe_total fun v : MetricVar => v.variance)
      (decideLe_trans fun v : MetricVar => v.variance) l).imp fun hab =>
        of_decide_eq_true hab⟩

/-- The tie-reversing sort also satisfies the documented contract: its output
is a permutation of its input ordered by Variance descending.  Nothing in
the contract pins down the order of Variance ties. -/
theorem tieReversingSort_spec :
    SortValuesSpec (fun a b => b.variance ≤ a.variance) tieReversingSort := by
  have htot : ∀ a b : MetricVar,
      decide (b.variance < a.variance ∨ (b.variance = a.variance ∧ b.metric ≤ a.metric)) =
        true ∨
      decide (a.variance < b.variance ∨ (a.variance = b.variance ∧ a.metric ≤ b.metric)) =
        true := by
    intro a b
    rcases lt_trichotomy b.variance a.variance with h | h | h
    · exact Or.inl (decide_eq_true (Or.inl h))
    · rcases le_total b.metric a.metric with hm | hm
      · exact Or.inl (decide_eq_true (Or.inr ⟨h, hm⟩))
      · exact Or.inr (decide_eq_true (Or.inr ⟨h.symm, hm⟩))
    · exact Or.inr (decide_eq_true (Or.inl h))
  have htrans : ∀ a b c : MetricVar,
      decide (b.variance < a.variance ∨ (b.variance = a.variance ∧ b.metric ≤ a.metric)) =
        true →
      decide (c.variance < b.variance ∨ (c.variance = b.variance ∧ c.metric ≤ b.metric)) =
        true →
      decide (c.variance < a.variance ∨ (c.variance = a.variance ∧ c.metric ≤ a.metric)) =
        true := by
    intro a b c h1 h2
    refine decide_eq_true ?_
    rcases of_decide_eq_true h1 with h1' | ⟨he1, hm1⟩
    · rcases of_decide_eq_true h2 with h2' | ⟨he2, hm2⟩
      · exact Or.inl (lt_trans h2' h1')
      · exact Or.inl (by rw [he2]; exact h1')
    · rcases of_decide_eq_true h2 with h2' | ⟨he2, hm2⟩
      · exact Or.inl (by rw [← he1]; exact h2')
      · exact Or.inr ⟨he2.trans he1, le_trans hm2 hm1⟩
  intro l
  unfold tieReversingSort
  exact ⟨insertionSortBy_perm _ l,
    (insertionSortBy_sorted _ htot htrans l).imp fun hab =>
      (of_decide_eq_true hab).elim (fun h => le_of_lt h) (fun h => le_of_eq h.1)⟩

/-- The pivot is a function of the row multiset, whichever routine plays the
descending sort. -/
theorem computeVarianceWith_perm (sortDesc : List MetricVar → List MetricVar)
    (tidy tidy' : List TidyRow) (h : tidy.Perm tidy') (period : MDate) :
    computeVarianceByMetricForPeriodWith sortDesc tidy period =
      computeVarianceByMetricForPeriodWith sortDesc tidy' period := by
  simp only [computeVarianceByMetricForPeriodWith]
  have hdf : (periodFilter tidy period).Perm (periodFilter tidy' period) := h.filter _
  rw [metricsSorted_eq _ _ hdf]
  refine congrArg _ (List.map_congr_left ?_)
  intro m _
  rw [metricSum_perm _ _ hdf m "Actual", metricSum_perm _ _ hdf m "Plan"]

/-- The whole summary is a function of the row multiset, whichever routines
play the two sorts. -/
theorem buildVarianceSummaryWith_perm (sortDesc sortAsc : List MetricVar → List MetricVar)
    (tidy tidy' : List TidyRow) (h : tidy.Perm tidy') (period : MDate) (topN : ℕ) :
    buildVarianceSummaryWith sortDesc sortAsc tidy period topN =
      buildVarianceSummaryWith sortDesc sortAsc tidy' period topN := by
  have hemp : tidy.isEmpty = tidy'.isEmpty := by
    have hlen := h.length_eq
    cases tidy <;> cases tidy' <;> simp_all
  unfold buildVarianceSummaryWith
  rw [← hemp, ← totalFor_perm tidy tidy' h period "Plan",
    ← totalFor_perm tidy tidy' h period "Actual",
    ← computeVarianceWith_perm sortDesc tidy tidy' h period]

/-- Evaluation of the insertion sort on a two-element list. -/
theorem insertionSortBy_pair (le : α → α → Bool) (a b : α) :
    insertionSortBy le [a, b] = if le a b then [a, b] else [b, a] := by
  by_cases h : le a b = true
  · simp [insertionSortBy, insertLe, h]
  · simp [insertionSortBy, insertLe, h]

/-- Claim C8 counterexample: the tie order of the contributor lists is not
fixed by the code.  `sort_values` is called with its default
`kind='quicksort'`, which pandas documents as not stable, so on Variance
ties only the sort contract is guaranteed; `tieReversingSort` satisfies that
contract, yet on two categories with equal variance it puts the
name-descending pair `[("B", 1), ("A", 1)]` at the head of the top-positive
contributor list, refuting any claimed tie-break by category name
ascending. -/
theorem varianceTieOrder_cex :
    SortValuesSpec (fun a b => b.variance ≤ a.variance) tieReversingSort ∧
    (buildVarianceSummaryWith tieReversingSort sortValuesAsc
        [⟨some (2025, 1, 31), "A", 1, "Actual"⟩, ⟨some (2025, 1, 31), "B", 1, "Actual"⟩]
        (2025, 1, 31) 5).map VarianceSummary.topPositiveContributors =
      some [("B", 1), ("A", 1)] := by
  refine ⟨tieReversingSort_spec, ?_⟩
  have hAB : decide (("A" : String) ≤ "B") = true := by
    rw [decide_eq_true_eq]
    simp
    decide
  have hBA : decide ((1 : ℚ) < 1 ∨ ((1 : ℚ) = 1 ∧ ("B" : String) ≤ "A")) = false := by
    rw [decide_eq_false_iff_not]
    push_neg
    constructor
    · norm_num
    · intro _
      simp
      decide
  have hAB2 : decide ((1 : ℚ) < 1 ∨ ((1 : ℚ) = 1 ∧ ("A" : String) ≤ "B")) = true := by
    rw [decide_eq_true_eq]
    refine Or.inr ⟨rfl, ?_⟩
    simp
    decide
  have hdf : periodFilter
      [⟨some (2025, 1, 31), "A", 1, "Actual"⟩, ⟨some (2025, 1, 31), "B", 1, "Actual"⟩]
      (2025, 1, 31) =
      [⟨some (2025, 1, 31), "A", 1, "Actual"⟩, ⟨some (2025, 1, 31), "B", 1, "Actual"⟩] := by
    simp [periodFilter]
  have hmet : insertionSortBy (fun a b => decide (a ≤ b))
      (dedupFirst (List.map (fun r => r.metric)
        ([⟨some (2025, 1, 31), "A", 1, "Actual"⟩,
          ⟨some (2025, 1, 31), "B", 1, "Actual"⟩] : List TidyRow))) = ["A", "B"] := by
    simp [dedupFirst, dedupFirstAux, insertionSortBy, insertLe, hAB]
    decide
  have hsA : metricSum
      [⟨some (2025, 1, 31), "A", 1, "Actual"⟩, ⟨some (2025, 1, 31), "B", 1, "Actual"⟩]
      "A" "Actual" = 1 := by
    simp [metricSum]
  have hpA : metricSum
      [⟨some (2025, 1, 31), "A", 1, "Actual"⟩, ⟨some (2025, 1, 31), "B", 1, "Actual"⟩]
      "A" "Plan" = 0 := by
    simp [metricSum]
  have hsB : metricSum
      [⟨some (2025, 1, 31), "A", 1, "Actual"⟩, ⟨some (2025, 1, 31), "B", 1, "Actual"⟩]
      "B" "Actual" = 1 := by
    simp [metricSum]
  have hpB : metricSum
      [⟨some (2025, 1, 31), "A", 1, "Actual"⟩, ⟨some (2025, 1, 31), "B", 1, "Actual"⟩]
      "B" "Plan" = 0 := by
    simp [metricSum]
  have hsort1 : tieReversingSort [⟨"A", 1, 0, 1⟩, ⟨"B", 1, 0, 1⟩] =
      [⟨"B", 1, 0, 1⟩, ⟨"A", 1, 0, 1⟩] := by
    unfold tieReversingSort
    rw [insertionSortBy_pair]
    dsimp only
    rw [hBA]
    rfl
  have hsort2 : tieReversingSort [⟨"B", 1, 0, 1⟩, ⟨"A", 1, 0, 1⟩] =
      [⟨"B", 1, 0, 1⟩, ⟨"A", 1, 0, 1⟩] := by
    unfold tieReversingSort
    rw [insertionSortBy_pair]
    dsimp only
    rw [hAB2]
    rfl
  have hpiv : computeVarianceByMetricForPeriodWith tieReversingSort
      [⟨some (2025, 1, 31), "A", 1, "Actual"⟩, ⟨some (2025, 1, 31), "B", 1, "Actual"⟩]
      (2025, 1, 31) =
      [⟨"B", 1, 0, 1⟩, ⟨"A", 1, 0, 1⟩] := by
    simp only [computeVarianceByMetricForPeriodWith]
    rw [hdf, hmet]
    rw [List.map_cons, List.map_cons, List.map_nil]
    rw [hsA, hpA, hsB, hpB]
    rw [show (1 : ℚ) - 0 = 1 from by norm_num]
    exact hsort1
  simp only [buildVarianceSummaryWith, hpiv, hsort2]
  simp

/-- Claim C8 (amended): for EVERY pair of sorting routines satisfying the
contract pandas documents for `sort_values` (the default `kind='quicksort'`
is not stable, so only key order is guaranteed), the summary of
`build_variance_summary` is deterministic and independent of the input row
order — any permutation of the input rows yields the identical summary — and
the contributor rank lists are ordered by variance (descending for
top-positive, ascending for top-negative).  The order of equal-variance ties
is NOT determined by the code (see the counterexample). -/
theorem varianceRanking_deterministic
    (sortDesc sortAsc : List MetricVar → List MetricVar)
    (hd : SortValuesSpec (fun a b => b.variance ≤ a.variance) sortDesc)
    (ha : SortValuesSpec (fun a b => a.variance ≤ b.variance) sortAsc)
    (tidy tidy' : List TidyRow) (hperm : tidy.Perm tidy') (period : MDate) (topN : ℕ) :
    buildVarianceSummaryWith sortDesc sortAsc tidy period topN =
      buildVarianceSummaryWith sortDesc sortAsc tidy' period topN ∧
    (∀ s, buildVarianceSummaryWith sortDesc sortAsc tidy period topN = some s →
      s.topPositiveContributors.Pairwise (fun a b => b.2 ≤ a.2) ∧
      s.topNegativeContributors.Pairwise (fun a b => a.2 ≤ b.2)) := by
  refine ⟨buildVarianceSummaryWith_perm sortDesc sortAsc tidy tidy' hperm period topN, ?_⟩
  intro s hsome
  unfold buildVarianceSummaryWith at hsome
  by_cases hne : tidy.isEmpty = true
  · rw [if_pos hne] at hsome
    cases hsome
  · rw [if_neg hne] at hsome
    injection hsome with hs
    subst hs
    constructor
    · exact List.Pairwise.map _ (fun a b hab => hab)
        (List.Pairwise.sublist (List.take_sublist _ _) (hd _).2)
    · exact List.Pairwise.map _ (fun a b hab => hab)
        (List.Pairwise.sublist (List.take_sublist _ _) (ha _).2)

theorem varianceRanking_deterministic_witness :
    buildVarianceSummaryWith sortValuesDesc sortValuesAsc
        [⟨some (2025, 1, 31), "Rev", 10, "Actual"⟩,
          ⟨some (2025, 1, 31), "Rev", 8, "Plan"⟩] (2025, 1, 31) 5 =
      buildVarianceSummaryWith sortValuesDesc sortValuesAsc
        [⟨some (2025, 1, 31), "Rev", 8, "Plan"⟩,
          ⟨some (2025, 1, 31), "Rev", 10, "Actual"⟩] (2025, 1, 31) 5 :=
  (varianceRanking_deterministic sortValuesDesc sortValuesAsc sortValuesDesc_spec
    sortValuesAsc_spec _ _
    (List.Perm.swap ⟨some (2025, 1, 31), "Rev", 8, "Plan"⟩
      ⟨some (2025, 1, 31), "Rev", 10, "Actual"⟩ []) (2025, 1, 31) 5).1


theorem coercion_kept_witness :
    (prepareTidyFrame [⟨none, "Revenue", some 100⟩] "Actual").length = 1 ∧
    prepareTidyFrame [⟨none, "Revenue", some 100⟩] "Actual" =
      [⟨none, "Revenue", 100, "Actual"⟩] ∧
    ∃ g ∈ alignSeries [⟨none, "Revenue", some 100⟩]
      [⟨some (2025, 1, 10), "Revenue", some 80⟩], g.date = none ∧ g.metric = "Revenue" := by
  have h := coercion_kept [⟨none, "Revenue", some 100⟩]
    [⟨some (2025, 1, 10), "Revenue", some 80⟩] "Actual" ⟨none, "Revenue", some 100⟩
    (List.mem_singleton_self _) rfl
  exact ⟨h.1, by rw [h.2.1]; rfl, h.2.2⟩

end Dash

end GepArr
